import Mathlib

/-!
Nucleotide primitives of pyrodigal (`src/pyrodigal/_sequence.h`).

A shallow embedding of the codon classifier and the k-mer indexer, and of the
vector interfaces of the skip kernel (`src/pyrodigal/impl/avx.c`, `sse.c`).

* A digit buffer `const uint8_t* digits` is a `List Nat`; the C `int`
  arguments (`slen`, `i`, `tt`, `strand`, `length`) are `Int`. The buffer and
  `slen` are separate arguments, as in C; the theorems relate them by
  `digits.length = slen`.
* Every array read is checked: reading outside the buffer, or outside the
  seven entries of `_complement`, is undefined behaviour in C and `none`
  here. The functions therefore return `Option Int`.
* The forward strand is `strand == 1`; the source sends every other value to
  the reverse branch, and so does the embedding.
* Index arithmetic (`i+1`, `slen-1-i`, ...) is done in `Int`: whenever the read
  is inside the buffer the C `int` computation does not overflow. The left
  shift of `_mer_ndx` is checked against the 32-bit signed range.
* C truth values are the integers `0` and `1`.
-/

namespace Pyrodigal

/-! ## `enum nucleotide` (lines 3-9) -/

/-- Digit code `A = 0b000`. -/
abbrev A : Nat := 0
/-- Digit code `G = 0b001`. -/
abbrev G : Nat := 1
/-- Digit code `C = 0b010`. -/
abbrev C : Nat := 2
/-- Digit code `T = 0b011`. -/
abbrev T : Nat := 3
/-- Digit code `N = 0b110`. -/
abbrev N : Nat := 6

/-- The table `_complement[N+1] = { T, C, G, A, N, N, N }` (line 11). -/
def _complement : List Nat := [T, C, G, A, N, N, N]

/-! ## Checked reads -/

/-- The read `digits[k]` for a C `int` index `k`: defined only inside the buffer. -/
def readAt (digits : List Nat) (k : Int) : Option Nat :=
  if 0 ≤ k then digits[k.toNat]? else none

/-- The read `_complement[d]`: defined only for `d` in `0..6`. -/
def complementAt (d : Nat) : Option Nat :=
  _complement[d]?

/-- The integer value of a C comparison or logical expression. -/
def ofBool (b : Bool) : Int := if b then 1 else 0

/-- The block every codon query starts with (lines 33-43, 63-73, 104-114,
120-130, 136-146): load `x0, x1, x2` from `i, i+1, i+2` on the forward
strand (`strand == 1`), and from the complements of `slen-1-i, slen-2-i,
slen-3-i` otherwise. -/
def load_codon (digits : List Nat) (slen i strand : Int) : Option (Nat × Nat × Nat) :=
  if strand = 1 then do
    let x0 ← readAt digits i
    let x1 ← readAt digits (i + 1)
    let x2 ← readAt digits (i + 2)
    pure (x0, x1, x2)
  else do
    let d0 ← readAt digits (slen - 1 - i)
    let x0 ← complementAt d0
    let d1 ← readAt digits (slen - 2 - i)
    let x1 ← complementAt d1
    let d2 ← readAt digits (slen - 3 - i)
    let x2 ← complementAt d2
    pure (x0, x1, x2)

/-! ## Composition queries (lines 14-30) -/

/-- Source `_is_a` (lines 14-16). -/
def _is_a (digits : List Nat) (slen i strand : Int) : Option Int :=
  if strand = 1 then do
    let d ← readAt digits i
    pure (ofBool (d == A))
  else do
    let d ← readAt digits (slen - 1 - i)
    pure (ofBool (d == T))

/-- Source `_is_g` (lines 18-20). -/
def _is_g (digits : List Nat) (slen i strand : Int) : Option Int :=
  if strand = 1 then do
    let d ← readAt digits i
    pure (ofBool (d == G))
  else do
    let d ← readAt digits (slen - 1 - i)
    pure (ofBool (d == C))

/-- Source `_is_gc` (lines 22-30): the reverse strand reads the digit itself,
without the complement table. -/
def _is_gc (digits : List Nat) (slen i strand : Int) : Option Int := do
  let nuc ← if strand = 1 then readAt digits i else readAt digits (slen - 1 - i)
  pure (ofBool (nuc == C || nuc == G || nuc == N))

/-! ## Start and stop classification (lines 32-101) -/

/-- The decision of `_is_start` on the loaded codon (lines 45-59). -/
def start_rule (x0 x1 x2 : Nat) (tt : Int) : Int :=
  -- ATG
  if (x0 == A) && (x1 == T) && (x2 == G) then 1
  -- Codes that only use ATG
  else if (tt == 6) || (tt == 10) || (tt == 14) || (tt == 15) || (tt == 16) || (tt == 2) then 0
  -- GTG
  else if (x0 == G) && (x1 == T) && (x2 == G) then
    ofBool (!((tt == 1) || (tt == 3) || (tt == 12) || (tt == 2)))
  -- TTG
  else if (x0 == T) && (x1 == T) && (x2 == G) then
    ofBool (!(decide (tt < 4) || (tt == 9) || (decide (tt ≥ 21) && decide (tt < 25))))
  -- other codons
  else 0

/-- Source `_is_start` (lines 32-60). -/
def _is_start (digits : List Nat) (slen i tt strand : Int) : Option Int := do
  let (x0, x1, x2) ← load_codon digits slen i strand
  pure (start_rule x0 x1 x2 tt)

/-- The decision of `_is_stop` on the loaded codon (lines 75-100). -/
def stop_rule (x0 x1 x2 : Nat) (tt : Int) : Int :=
  -- TAG
  if (x0 == T) && (x1 == A) && (x2 == G) then
    ofBool (!((tt == 6) || (tt == 15) || (tt == 16) || (tt == 22)))
  -- TGA
  else if (x0 == T) && (x1 == G) && (x2 == A) then
    ofBool (!((tt == 2) || (tt == 3) || (tt == 4) || (tt == 5)
      || (tt == 9) || (tt == 10) || (tt == 13) || (tt == 14)
      || (tt == 21) || (tt == 25)))
  -- TAA
  else if (x0 == T) && (x1 == A) && (x2 == A) then
    ofBool (!((tt == 6) || (tt == 14)))
  -- Code 2: AGA / AGG
  else if tt == 2 then
    ofBool ((x0 == A) && (x1 == G) && ((x2 == A) || (x2 == G)))
  -- Code 22: TCA
  else if tt == 22 then
    ofBool ((x0 == T) && (x1 == C) && (x2 == A))
  -- Code 23: TTA
  else if tt == 23 then
    ofBool ((x0 == T) && (x1 == T) && (x2 == A))
  -- other codons
  else 0

/-- Source `_is_stop` (lines 62-101). -/
def _is_stop (digits : List Nat) (slen i tt strand : Int) : Option Int := do
  let (x0, x1, x2) ← load_codon digits slen i strand
  pure (stop_rule x0 x1 x2 tt)

/-! ## Identity queries (lines 103-149) -/

/-- Source `_is_atg` (lines 103-117). -/
def _is_atg (digits : List Nat) (slen i strand : Int) : Option Int := do
  let (x0, x1, x2) ← load_codon digits slen i strand
  pure (ofBool ((x0 == A) && (x1 == T) && (x2 == G)))

/-- Source `_is_gtg` (lines 119-133). -/
def _is_gtg (digits : List Nat) (slen i strand : Int) : Option Int := do
  let (x0, x1, x2) ← load_codon digits slen i strand
  pure (ofBool ((x0 == G) && (x1 == T) && (x2 == G)))

/-- Source `_is_ttg` (lines 135-149). -/
def _is_ttg (digits : List Nat) (slen i strand : Int) : Option Int := do
  let (x0, x1, x2) ← load_codon digits slen i strand
  pure (ofBool ((x0 == T) && (x1 == T) && (x2 == G)))

/-! ## K-mer index (lines 151-164) -/

/-- The C expression `x << s` on `int`, for `x ≥ 0`: defined when the shift
count is below the width and the result fits a 32-bit signed `int`. -/
def shl (x s : Nat) : Option Nat :=
  if s < 32 ∧ x <<< s < 2 ^ 31 then some (x <<< s) else none

/-- The forward loop of `_mer_ndx` (lines 155-157) with `n` iterations left:
`ndx |= (digits[k] & 0b11) << 2*j; k++, j++`. -/
def mer_loop_fwd (digits : List Nat) : Nat → Nat → Int → Nat → Option Nat
  | 0, _, _, ndx => some ndx
  | n + 1, j, k, ndx => do
    let d ← readAt digits k
    let v ← shl (d &&& 0b11) (2 * j)
    mer_loop_fwd digits n (j + 1) (k + 1) (ndx ||| v)

/-- The reverse loop of `_mer_ndx` (lines 159-161) with `n` iterations left:
`ndx |= (_complement[digits[k]] & 0b11) << 2*j; k--, j++`. -/
def mer_loop_rev (digits : List Nat) : Nat → Nat → Int → Nat → Option Nat
  | 0, _, _, ndx => some ndx
  | n + 1, j, k, ndx => do
    let d ← readAt digits k
    let c ← complementAt d
    let v ← shl (c &&& 0b11) (2 * j)
    mer_loop_rev digits n (j + 1) (k - 1) (ndx ||| v)

/-- Source `_mer_ndx` (lines 151-164). The loop `for (j = 0; j < length; j++)`
runs `length.toNat` times (not at all when `length ≤ 0`); `ndx` starts at 0 and
stays non-negative, so it is kept as a `Nat` and returned as an `int`. -/
def _mer_ndx (digits : List Nat) (slen i length strand : Int) : Option Int :=
  if strand = 1 then
    (mer_loop_fwd digits length.toNat 0 i 0).map Int.ofNat
  else
    (mer_loop_rev digits length.toNat 0 (slen - 1 - i) 0).map Int.ofNat

/-! ## Skip kernel (`impl/avx.c`, `impl/sse.c`) -/

/-- The 8-bit pattern of a C integer: the stored form of an `int8_t` entry and
the value `_mm_set1_epi8` broadcasts. -/
def to_byte (x : Int) : Nat := (x % 256).toNat

/-- Intrinsics `_mm256_load_si256` (32 lanes) and `_mm_load_si128` (16 lanes)
on a byte array: the `lanes` bytes from index `k` on, defined only when all of
them lie inside the array. Alignment of the address is not modelled. -/
def load_si (lanes : Nat) (m : List Nat) (k : Int) : Option (List Nat) :=
  if 0 ≤ k ∧ k + (lanes : Int) ≤ (m.length : Int) then
    some ((m.drop k.toNat).take lanes)
  else none

/-- Intrinsics `_mm256_set1_epi8` and `_mm_set1_epi8`: every lane holds the
low byte of `x`. -/
def set1_epi8 (lanes : Nat) (x : Int) : List Nat := List.replicate lanes (to_byte x)

/-- Intrinsics `_mm256_or_si256` and `_mm_or_si128`, byte by byte. -/
def or_si (a b : List Nat) : List Nat := List.zipWith (fun x y => x ||| y) a b

/-- Intrinsics `_mm256_and_si256` and `_mm_and_si128`, byte by byte. -/
def and_si (a b : List Nat) : List Nat := List.zipWith (fun x y => x &&& y) a b

/-- Intrinsics `_mm256_andnot_si256(a, b)` and `_mm_andnot_si128(a, b)`:
`(NOT a) AND b`, byte by byte. -/
def andnot_si (a b : List Nat) : List Nat := List.zipWith (fun x y => (255 - x) &&& y) a b

/-- Intrinsics `_mm256_cmpeq_epi8` and `_mm_cmpeq_epi8`: `0xFF` in the lanes
where the bytes are equal, `0` elsewhere. -/
def cmpeq_epi8 (a b : List Nat) : List Nat :=
  List.zipWith (fun x y => if x = y then 255 else 0) a b

/-- The vector interface a source file sets up before it expands the template:
`SIMD_LANES` and the macros `simd_load`, `simd_set1`, `simd_or`, `simd_eq`,
`simd_and`, `simd_andnot`. -/
structure SimdPolicy where
  /-- Macro `SIMD_LANES`. -/
  lanes : Nat
  /-- Macro `simd_load(m)`, as a read of array `m` at an index. -/
  simd_load : List Nat → Int → Option (List Nat)
  /-- Macro `simd_set1(x)`. -/
  simd_set1 : Int → List Nat
  /-- Macro `simd_or(x, y)`. -/
  simd_or : List Nat → List Nat → List Nat
  /-- Macro `simd_eq(x, y)`. -/
  simd_eq : List Nat → List Nat → List Nat
  /-- Macro `simd_and(x, y)`. -/
  simd_and : List Nat → List Nat → List Nat
  /-- Macro `simd_andnot(x, y)`. -/
  simd_andnot : List Nat → List Nat → List Nat

/-- Source `impl/avx.c`, lines 11-21: `SIMD_LANES 32`, each macro is the
`_mm256_` intrinsic, and `simd_andnot(x, y)` is `_mm256_andnot_si256(y, x)`. -/
def avx : SimdPolicy :=
  SimdPolicy.mk 32
    (fun m k => load_si 32 m k)
    (fun x => set1_epi8 32 x)
    (fun x y => or_si x y)
    (fun x y => cmpeq_epi8 x y)
    (fun x y => and_si x y)
    (fun x y => andnot_si y x)

/-- Source `impl/sse.c`, lines 11-21: `SIMD_LANES 16`, each macro is the `_mm_`
intrinsic, and `simd_andnot(x, y)` is `_mm_andnot_si128(y, x)`. -/
def sse : SimdPolicy :=
  SimdPolicy.mk 16
    (fun m k => load_si 16 m k)
    (fun x => set1_epi8 16 x)
    (fun x y => or_si x y)
    (fun x y => cmpeq_epi8 x y)
    (fun x y => and_si x y)
    (fun x y => andnot_si y x)

/-- Modelled from the spec: the scalar instantiation, which is not among the
sources. The specification describes it as the same algorithm with a single
lane, so it is the same interface on one byte. -/
def scalar : SimdPolicy :=
  SimdPolicy.mk 1
    (fun m k => load_si 1 m k)
    (fun x => set1_epi8 1 x)
    (fun x y => or_si x y)
    (fun x y => cmpeq_epi8 x y)
    (fun x y => and_si x y)
    (fun x y => andnot_si y x)

/-- Modelled from the spec: the body of the template `skippable_simd` of
`template.h`, which is not among the sources. The specification (section 4.4)
says the algorithm is written against the vector interface only (load,
broadcast-scalar, or, and, and-not, equality-compare, and a final store), that
one call handles the consecutive nodes starting at `i`, and that the predicate
uses the three attribute arrays and `min`; it leaves the predicate itself open.
A body is therefore any expression over the interface: the loads of the three
arrays at `i`, broadcasts of scalars computed from the arguments, and the four
binary operations. -/
inductive SkipExpr where
  | strands : SkipExpr
  | types : SkipExpr
  | frames : SkipExpr
  | broadcast : (List Int → List Nat → List Nat → Int → Int → Int) → SkipExpr
  | or : SkipExpr → SkipExpr → SkipExpr
  | eq : SkipExpr → SkipExpr → SkipExpr
  | and : SkipExpr → SkipExpr → SkipExpr
  | andnot : SkipExpr → SkipExpr → SkipExpr

/-- Modelled from the spec: the template `skippable_simd` expanded with the
vector interface `P` on the body `body`. The result is the block of flags
handed to `simd_store`, one byte per lane, lane `j` being the flag of node
`i + j`; it is `none` when a load leaves its array. -/
def skippable_simd (P : SimdPolicy) (body : SkipExpr) (strands : List Int)
    (types frames : List Nat) (min i : Int) : Option (List Nat) :=
  match body with
  | SkipExpr.strands => P.simd_load (strands.map to_byte) i
  | SkipExpr.types => P.simd_load types i
  | SkipExpr.frames => P.simd_load frames i
  | SkipExpr.broadcast x => some (P.simd_set1 (x strands types frames min i))
  | SkipExpr.or a b => do
    let x ← skippable_simd P a strands types frames min i
    let y ← skippable_simd P b strands types frames min i
    pure (P.simd_or x y)
  | SkipExpr.eq a b => do
    let x ← skippable_simd P a strands types frames min i
    let y ← skippable_simd P b strands types frames min i
    pure (P.simd_eq x y)
  | SkipExpr.and a b => do
    let x ← skippable_simd P a strands types frames min i
    let y ← skippable_simd P b strands types frames min i
    pure (P.simd_and x y)
  | SkipExpr.andnot a b => do
    let x ← skippable_simd P a strands types frames min i
    let y ← skippable_simd P b strands types frames min i
    pure (P.simd_andnot x y)

/-- Source `skippable_avx` (`impl/avx.c`, lines 23-32): the template expanded
with the macros of `avx.c`. -/
def skippable_avx (body : SkipExpr) (strands : List Int) (types frames : List Nat)
    (min i : Int) : Option (List Nat) :=
  skippable_simd avx body strands types frames min i

/-- Source `skippable_sse` (`impl/sse.c`, lines 23-32): the template expanded
with the macros of `sse.c`. -/
def skippable_sse (body : SkipExpr) (strands : List Int) (types frames : List Nat)
    (min i : Int) : Option (List Nat) :=
  skippable_simd sse body strands types frames min i

/-- Modelled from the spec: the scalar instantiation of the template. -/
def skippable_scalar (body : SkipExpr) (strands : List Int) (types frames : List Nat)
    (min i : Int) : Option (List Nat) :=
  skippable_simd scalar body strands types frames min i

/-- A sample body: the flag is 1 where the node is on the strand of node `i`
and its type is not 0, that is
`simd_and(simd_andnot(simd_eq(strands, set1(strands[i])), simd_eq(types, set1(0))), set1(1))`. -/
def sample_body : SkipExpr :=
  SkipExpr.and
    (SkipExpr.andnot
      (SkipExpr.eq SkipExpr.strands (SkipExpr.broadcast fun s _ _ _ i => s.getD i.toNat 0))
      (SkipExpr.eq SkipExpr.types (SkipExpr.broadcast fun _ _ _ _ _ => 0)))
    (SkipExpr.broadcast fun _ _ _ _ _ => 1)

/-- Sample strands of 40 nodes: 20 forward, then 20 reverse. -/
def sample_strands : List Int := List.replicate 20 1 ++ List.replicate 20 (-1)

/-- Sample types of 40 nodes: alternately 0 and 1. -/
def sample_types : List Nat := (List.range 40).map fun n => n % 2

/-- Sample frames of 40 nodes: 0, 1, 2 in turn. -/
def sample_frames : List Nat := (List.range 40).map fun n => n % 3

/-- One call with `lanes` lanes at `i` stays inside the three arrays. -/
def Covered (lanes : Nat) (strands : List Int) (types frames : List Nat) (i : Int) : Prop :=
  0 ≤ i ∧ i + (lanes : Int) ≤ (strands.length : Int)
    ∧ i + (lanes : Int) ≤ (types.length : Int) ∧ i + (lanes : Int) ≤ (frames.length : Int)

instance (lanes : Nat) (strands : List Int) (types frames : List Nat) (i : Int) :
    Decidable (Covered lanes strands types frames i) := by
  unfold Covered; exact inferInstance

/-- The interface `Q` is the interface `P` cut down to its first `Q.lanes`
lanes: every operation of `P`, restricted to those lanes, is the operation
of `Q`. -/
structure Narrows (P Q : SimdPolicy) : Prop where
  load : ∀ m k v, P.simd_load m k = some v → Q.simd_load m k = some (v.take Q.lanes)
  set1 : ∀ x, (P.simd_set1 x).take Q.lanes = Q.simd_set1 x
  or : ∀ x y, (P.simd_or x y).take Q.lanes = Q.simd_or (x.take Q.lanes) (y.take Q.lanes)
  eq : ∀ x y, (P.simd_eq x y).take Q.lanes = Q.simd_eq (x.take Q.lanes) (y.take Q.lanes)
  and : ∀ x y, (P.simd_and x y).take Q.lanes = Q.simd_and (x.take Q.lanes) (y.take Q.lanes)
  andnot : ∀ x y,
    (P.simd_andnot x y).take Q.lanes = Q.simd_andnot (x.take Q.lanes) (y.take Q.lanes)

/-- Every vector the interface produces has `lanes` lanes. -/
structure Sized (P : SimdPolicy) : Prop where
  load : ∀ m k v, P.simd_load m k = some v → v.length = P.lanes
  set1 : ∀ x, (P.simd_set1 x).length = P.lanes
  or : ∀ x y, x.length = P.lanes → y.length = P.lanes → (P.simd_or x y).length = P.lanes
  eq : ∀ x y, x.length = P.lanes → y.length = P.lanes → (P.simd_eq x y).length = P.lanes
  and : ∀ x y, x.length = P.lanes → y.length = P.lanes → (P.simd_and x y).length = P.lanes
  andnot : ∀ x y, x.length = P.lanes → y.length = P.lanes →
    (P.simd_andnot x y).length = P.lanes

/-! ## Vocabulary of the specification -/

/-- The symbol at position `k` in the orientation of `strand`: `digits[k]` on
the forward strand, `_complement[digits[slen-1-k]]` on the reverse strand. -/
def oriented (digits : List Nat) (slen k strand : Int) : Nat :=
  if strand = 1 then digits.getD k.toNat 0
  else _complement.getD (digits.getD (slen - 1 - k).toNat 0) 0

/-- The oriented 3-symbol window starting at position `i`. -/
def window (digits : List Nat) (slen i strand : Int) : Nat × Nat × Nat :=
  (oriented digits slen i strand, oriented digits slen (i + 1) strand,
    oriented digits slen (i + 2) strand)

/-- The three symbols read on the forward strand: `digits[i], digits[i+1], digits[i+2]`. -/
def forward_reads (digits : List Nat) (i : Int) : Nat × Nat × Nat :=
  (digits.getD i.toNat 0, digits.getD (i + 1).toNat 0, digits.getD (i + 2).toNat 0)

/-- The three symbols read on the reverse strand: the complements of
`digits[slen-1-i], digits[slen-2-i], digits[slen-3-i]`. -/
def reverse_reads (digits : List Nat) (slen i : Int) : Nat × Nat × Nat :=
  (_complement.getD (digits.getD (slen - 1 - i).toNat 0) 0,
    _complement.getD (digits.getD (slen - 2 - i).toNat 0) 0,
    _complement.getD (digits.getD (slen - 3 - i).toNat 0) 0)

/-- Position `p` of the buffer is read by `_mer_ndx`: `i ≤ p < i + length` on
the forward strand, `slen - i - length ≤ p ≤ slen - 1 - i` on the reverse strand. -/
def in_read_window (slen i length strand p : Int) : Prop :=
  if strand = 1 then i ≤ p ∧ p < i + length
  else slen - i - length ≤ p ∧ p ≤ slen - 1 - i

instance (slen i length strand p : Int) : Decidable (in_read_window slen i length strand p) := by
  unfold in_read_window; exact inferInstance

/-- The buffer with every `old` inside the read window replaced by `new`. -/
def replace_in_window (digits : List Nat) (slen i length strand : Int) (old new : Nat) :
    List Nat :=
  digits.mapIdx fun p d =>
    if in_read_window slen i length strand (p : Int) ∧ d = old then new else d

/-- The materialised reverse complement: `S'[k] = _complement[S[slen-1-k]]`. -/
def revcomp (digits : List Nat) : List Nat :=
  (digits.reverse).map fun d => _complement.getD d 0

/-- Every code of the buffer indexes the complement table (`0..6`). -/
def ValidCodes (digits : List Nat) : Prop := ∀ d ∈ digits, d ≤ 6

instance (digits : List Nat) : Decidable (ValidCodes digits) :=
  inferInstanceAs (Decidable (∀ d ∈ digits, d ≤ 6))

/-- The buffer is over the alphabet `{A, G, C, T, N}`. -/
def OverAlphabet (digits : List Nat) : Prop := ∀ d ∈ digits, d ∈ [A, G, C, T, N]

instance (digits : List Nat) : Decidable (OverAlphabet digits) :=
  inferInstanceAs (Decidable (∀ d ∈ digits, d ∈ [A, G, C, T, N]))

/-- Digits of the text "ATGAAATAAATG". -/
def scenario : List Nat := [A, T, G, A, A, A, T, A, A, A, T, G]

/-! ## Reads under the caller's precondition -/

theorem readAt_eq (digits : List Nat) (k : Int) (h0 : 0 ≤ k)
    (h1 : k < (digits.length : Int)) :
    readAt digits k = some (digits.getD k.toNat 0) := by
  have hk : k.toNat < digits.length := by omega
  simp [readAt, h0, List.getD_eq_getElem?_getD, List.getElem?_eq_getElem hk]

theorem getD_mem (digits : List Nat) (n : Nat) (h : n < digits.length) :
    digits.getD n 0 ∈ digits := by
  simp [List.getD_eq_getElem?_getD, List.getElem?_eq_getElem h]

theorem complementAt_eq (d : Nat) (h : d ≤ 6) :
    complementAt d = some (_complement.getD d 0) := by
  have hd : d < _complement.length := by simp [_complement]; omega
  simp [complementAt, List.getD_eq_getElem?_getD, List.getElem?_eq_getElem hd]

theorem load_codon_eq (digits : List Nat) (slen i strand : Int)
    (hlen : (digits.length : Int) = slen) (hi0 : 0 ≤ i) (hi : i ≤ slen - 3)
    (hcodes : ValidCodes digits) :
    load_codon digits slen i strand = some (window digits slen i strand) := by
  unfold load_codon window oriented
  by_cases hs : strand = 1
  · simp only [hs, if_true]
    rw [readAt_eq digits i hi0 (by omega), readAt_eq digits (i + 1) (by omega) (by omega),
      readAt_eq digits (i + 2) (by omega) (by omega)]
    rfl
  · simp only [hs, if_false]
    have e1 : slen - 1 - (i + 1) = slen - 2 - i := by ring
    have e2 : slen - 1 - (i + 2) = slen - 3 - i := by ring
    rw [e1, e2]
    rw [readAt_eq digits (slen - 1 - i) (by omega) (by omega),
      readAt_eq digits (slen - 2 - i) (by omega) (by omega),
      readAt_eq digits (slen - 3 - i) (by omega) (by omega)]
    simp only [Option.bind_eq_bind, Option.some_bind]
    rw [complementAt_eq _ (hcodes _ (getD_mem digits _ (by omega))),
      complementAt_eq _ (hcodes _ (getD_mem digits _ (by omega))),
      complementAt_eq _ (hcodes _ (getD_mem digits _ (by omega)))]
    rfl

theorem complement_getD_le (d : Nat) : _complement.getD d 0 ≤ 6 := by
  unfold _complement
  rcases d with _ | _ | _ | _ | _ | _ | _ | d <;> first | decide | simp

theorem revcomp_length (digits : List Nat) : (revcomp digits).length = digits.length := by
  simp [revcomp]

theorem revcomp_valid (digits : List Nat) : ValidCodes (revcomp digits) := by
  intro d hd
  simp only [revcomp, List.mem_map] at hd
  obtain ⟨e, _, rfl⟩ := hd
  exact complement_getD_le e

theorem revcomp_getD (digits : List Nat) (k : Nat) (hk : k < digits.length) :
    (revcomp digits).getD k 0 = _complement.getD (digits.getD (digits.length - 1 - k) 0) 0 := by
  have h1 : digits.length - 1 - k < digits.length := by omega
  unfold revcomp
  rw [List.getD_eq_getElem?_getD, List.getElem?_map, List.getElem?_reverse hk,
    List.getElem?_eq_getElem h1, List.getD_eq_getElem digits 0 h1]
  rfl

theorem oriented_revcomp (digits : List Nat) (slen k strand : Int)
    (hlen : (digits.length : Int) = slen) (hk0 : 0 ≤ k) (hk : k < slen) (hs : strand ≠ 1) :
    oriented digits slen k strand = oriented (revcomp digits) slen k 1 := by
  have e : (slen - 1 - k).toNat = digits.length - 1 - k.toNat := by omega
  simp only [oriented, hs, if_false, if_true]
  rw [revcomp_getD digits k.toNat (by omega), e]

theorem window_revcomp (digits : List Nat) (slen i strand : Int)
    (hlen : (digits.length : Int) = slen) (hi0 : 0 ≤ i) (hi : i ≤ slen - 3) (hs : strand ≠ 1) :
    window digits slen i strand = window (revcomp digits) slen i 1 := by
  simp only [window]
  rw [oriented_revcomp digits slen i strand hlen hi0 (by omega) hs,
    oriented_revcomp digits slen (i + 1) strand hlen (by omega) (by omega) hs,
    oriented_revcomp digits slen (i + 2) strand hlen (by omega) (by omega) hs]

theorem valid_of_alphabet (digits : List Nat) (h : OverAlphabet digits) : ValidCodes digits := by
  intro d hd
  have := h d hd
  simp only [A, G, C, T, N, List.mem_cons, List.mem_singleton, List.not_mem_nil, or_false] at this
  omega

theorem start_rule_eq (x0 x1 x2 : Nat) (tt : Int) :
    start_rule x0 x1 x2 tt =
      if (x0, x1, x2) = (A, T, G)
          ∨ (tt ∉ ([2, 6, 10, 14, 15, 16] : List Int) ∧ (x0, x1, x2) = (G, T, G)
              ∧ tt ∉ ([1, 2, 3, 12] : List Int))
          ∨ (tt ∉ ([2, 6, 10, 14, 15, 16] : List Int) ∧ (x0, x1, x2) = (T, T, G)
              ∧ ¬ (tt < 4 ∨ tt = 9 ∨ (21 ≤ tt ∧ tt < 25)))
      then 1 else 0 := by
  unfold start_rule ofBool
  simp only [A, G, T, Prod.mk.injEq, List.mem_cons, List.mem_singleton, List.not_mem_nil,
    or_false, Bool.and_eq_true, Bool.or_eq_true, beq_iff_eq, decide_eq_true_eq, Bool.not_eq_true',
    Bool.or_eq_false_iff, Bool.and_eq_false_imp, beq_eq_false_iff_ne, decide_eq_false_iff_not]
  split_ifs <;> first | rfl | (exfalso; omega)

theorem stop_rule_eq (x0 x1 x2 : Nat) (tt : Int) :
    stop_rule x0 x1 x2 tt =
      if (x0, x1, x2) = (T, A, G) then
        (if tt ∈ ([6, 15, 16, 22] : List Int) then 0 else 1)
      else if (x0, x1, x2) = (T, G, A) then
        (if tt ∈ ([2, 3, 4, 5, 9, 10, 13, 14, 21, 25] : List Int) then 0 else 1)
      else if (x0, x1, x2) = (T, A, A) then
        (if tt ∈ ([6, 14] : List Int) then 0 else 1)
      else if (tt = 2 ∧ ((x0, x1, x2) = (A, G, A) ∨ (x0, x1, x2) = (A, G, G)))
          ∨ (tt = 22 ∧ (x0, x1, x2) = (T, C, A))
          ∨ (tt = 23 ∧ (x0, x1, x2) = (T, T, A))
      then 1 else 0 := by
  unfold stop_rule ofBool
  simp only [A, G, C, T, Prod.mk.injEq, List.mem_cons, List.mem_singleton, List.not_mem_nil,
    or_false, Bool.and_eq_true, Bool.or_eq_true, beq_iff_eq, decide_eq_true_eq,
    Bool.not_eq_true', Bool.or_eq_false_iff, Bool.and_eq_false_imp, beq_eq_false_iff_ne,
    decide_eq_false_iff_not]
  by_cases h1 : x0 = 3 ∧ x1 = 0 ∧ x2 = 1
  · rw [if_pos (by omega), if_pos h1]
    split_ifs <;> first | rfl | omega
  rw [if_neg (by omega), if_neg h1]
  by_cases h2 : x0 = 3 ∧ x1 = 1 ∧ x2 = 0
  · rw [if_pos (by omega), if_pos h2]
    split_ifs <;> first | rfl | omega
  rw [if_neg (by omega), if_neg h2]
  by_cases h3 : x0 = 3 ∧ x1 = 0 ∧ x2 = 0
  · rw [if_pos (by omega), if_pos h3]
    split_ifs <;> first | rfl | omega
  rw [if_neg (by omega), if_neg h3]
  split_ifs <;> first | rfl | omega

theorem is_start_eq_rule (digits : List Nat) (slen i tt strand : Int)
    (hlen : (digits.length : Int) = slen) (hi0 : 0 ≤ i) (hi : i ≤ slen - 3)
    (hcodes : ValidCodes digits) :
    _is_start digits slen i tt strand =
      some (start_rule (window digits slen i strand).1 (window digits slen i strand).2.1
        (window digits slen i strand).2.2 tt) := by
  rw [_is_start, load_codon_eq digits slen i strand hlen hi0 hi hcodes]
  rfl

theorem is_stop_eq_rule (digits : List Nat) (slen i tt strand : Int)
    (hlen : (digits.length : Int) = slen) (hi0 : 0 ≤ i) (hi : i ≤ slen - 3)
    (hcodes : ValidCodes digits) :
    _is_stop digits slen i tt strand =
      some (stop_rule (window digits slen i strand).1 (window digits slen i strand).2.1
        (window digits slen i strand).2.2 tt) := by
  rw [_is_stop, load_codon_eq digits slen i strand hlen hi0 hi hcodes]
  rfl

/-! ## Start classification -/

/-- C1: under the caller's precondition (`slen` is the buffer length,
`0 ≤ i ≤ slen - 3`, codes in `0..6`), for every genetic code `tt` and every
strand value, `_is_start` returns 1 exactly when the oriented window is ATG, or
`tt` is not an ATG-only code and the window is GTG with `tt ∉ {1,2,3,12}`, or
`tt` is not an ATG-only code and the window is TTG with neither `tt < 4`,
`tt = 9` nor `21 ≤ tt < 25`; it returns 0 otherwise. In particular an ATG
window is a start for every `tt`. -/
theorem is_start_spec (digits : List Nat) (slen i tt strand : Int)
    (hlen : (digits.length : Int) = slen) (hi0 : 0 ≤ i) (hi : i ≤ slen - 3)
    (hcodes : ValidCodes digits) :
    _is_start digits slen i tt strand = some
      (if window digits slen i strand = (A, T, G)
          ∨ (tt ∉ ([2, 6, 10, 14, 15, 16] : List Int)
              ∧ window digits slen i strand = (G, T, G)
              ∧ tt ∉ ([1, 2, 3, 12] : List Int))
          ∨ (tt ∉ ([2, 6, 10, 14, 15, 16] : List Int)
              ∧ window digits slen i strand = (T, T, G)
              ∧ ¬ (tt < 4 ∨ tt = 9 ∨ (21 ≤ tt ∧ tt < 25)))
        then 1 else 0)
    ∧ (window digits slen i strand = (A, T, G) →
        _is_start digits slen i tt strand = some 1) := by
  have h := is_start_eq_rule digits slen i tt strand hlen hi0 hi hcodes
  rw [start_rule_eq] at h
  refine ⟨h, fun hw => ?_⟩
  rw [h, if_pos (Or.inl hw)]

/-- Witness for C1: position 0 of "ATGAAATAAATG", forward strand, code 11. -/
theorem is_start_spec_witness :
    ((scenario.length : Int) = 12 ∧ (0 : Int) ≤ 0 ∧ (0 : Int) ≤ 12 - 3
      ∧ ValidCodes scenario ∧ window scenario 12 0 1 = (A, T, G))
    ∧ _is_start scenario 12 0 11 1 = some 1 :=
  ⟨⟨by decide, by decide, by decide, by decide, by decide⟩,
    (is_start_spec scenario 12 0 11 1 (by decide) (by decide) (by decide) (by decide)).2
      (by decide)⟩

/-! ## Stop classification -/

/-- C2: under the caller's precondition, for every genetic code `tt` and every
strand value: when the oriented window is TAG, `_is_stop` returns 1 iff
`tt ∉ {6,15,16,22}` (and 0 otherwise); when it is TGA, it returns 1 iff
`tt ∉ {2,3,4,5,9,10,13,14,21,25}`; when it is TAA, it returns 1 iff
`tt ∉ {6,14}`. -/
theorem is_stop_standard (digits : List Nat) (slen i tt strand : Int)
    (hlen : (digits.length : Int) = slen) (hi0 : 0 ≤ i) (hi : i ≤ slen - 3)
    (hcodes : ValidCodes digits) :
    (window digits slen i strand = (T, A, G) →
      _is_stop digits slen i tt strand =
        some (if tt ∉ ([6, 15, 16, 22] : List Int) then 1 else 0))
    ∧ (window digits slen i strand = (T, G, A) →
      _is_stop digits slen i tt strand =
        some (if tt ∉ ([2, 3, 4, 5, 9, 10, 13, 14, 21, 25] : List Int) then 1 else 0))
    ∧ (window digits slen i strand = (T, A, A) →
      _is_stop digits slen i tt strand =
        some (if tt ∉ ([6, 14] : List Int) then 1 else 0)) := by
  have h := is_stop_eq_rule digits slen i tt strand hlen hi0 hi hcodes
  rw [stop_rule_eq] at h
  refine ⟨fun hw => ?_, fun hw => ?_, fun hw => ?_⟩
  · rw [h, if_pos hw]; split_ifs <;> rfl
  · rw [h, if_neg (by rw [hw]; decide), if_pos hw]; split_ifs <;> rfl
  · rw [h, if_neg (by rw [hw]; decide), if_neg (by rw [hw]; decide), if_pos hw]
    split_ifs <;> rfl

/-- Witness for C2: in "ATGAAATAAATG", forward strand, position 6 (TAA) is a
stop under code 1 and not a stop under code 6; the TAG and TGA rules are
instantiated on one-codon buffers. -/
theorem is_stop_standard_witness :
    (_is_stop scenario 12 6 1 1 = some 1 ∧ _is_stop scenario 12 6 6 1 = some 0)
    ∧ (_is_stop [T, A, G] 3 0 1 1 = some 1 ∧ _is_stop [T, A, G] 3 0 22 1 = some 0)
    ∧ (_is_stop [T, G, A] 3 0 1 1 = some 1 ∧ _is_stop [T, G, A] 3 0 4 1 = some 0) :=
  ⟨⟨(is_stop_standard scenario 12 6 1 1 (by decide) (by decide) (by decide)
        (by decide)).2.2 (by decide),
    (is_stop_standard scenario 12 6 6 1 (by decide) (by decide) (by decide)
        (by decide)).2.2 (by decide)⟩,
   ⟨(is_stop_standard [T, A, G] 3 0 1 1 (by decide) (by decide) (by decide)
        (by decide)).1 (by decide),
    (is_stop_standard [T, A, G] 3 0 22 1 (by decide) (by decide) (by decide)
        (by decide)).1 (by decide)⟩,
   ⟨(is_stop_standard [T, G, A] 3 0 1 1 (by decide) (by decide) (by decide)
        (by decide)).2.1 (by decide),
    (is_stop_standard [T, G, A] 3 0 4 1 (by decide) (by decide) (by decide)
        (by decide)).2.1 (by decide)⟩⟩

/-- C3: under the caller's precondition, for every genetic code `tt` and every
strand value: when the oriented window is none of TAG, TGA, TAA, `_is_stop`
returns 1 exactly when (`tt = 2` and the window is AGA or AGG) or (`tt = 22`
and the window is TCA) or (`tt = 23` and the window is TTA), and 0 in every
other case. -/
theorem is_stop_extra (digits : List Nat) (slen i tt strand : Int)
    (hlen : (digits.length : Int) = slen) (hi0 : 0 ≤ i) (hi : i ≤ slen - 3)
    (hcodes : ValidCodes digits)
    (hTAG : window digits slen i strand ≠ (T, A, G))
    (hTGA : window digits slen i strand ≠ (T, G, A))
    (hTAA : window digits slen i strand ≠ (T, A, A)) :
    _is_stop digits slen i tt strand = some
      (if (tt = 2 ∧ (window digits slen i strand = (A, G, A)
                      ∨ window digits slen i strand = (A, G, G)))
          ∨ (tt = 22 ∧ window digits slen i strand = (T, C, A))
          ∨ (tt = 23 ∧ window digits slen i strand = (T, T, A))
        then 1 else 0) := by
  have h := is_stop_eq_rule digits slen i tt strand hlen hi0 hi hcodes
  rw [stop_rule_eq] at h
  rw [h, if_neg hTAG, if_neg hTGA, if_neg hTAA]

/-- Witness for C3: the window AGA on the forward strand is a stop under
code 2 and not a stop under code 1. -/
theorem is_stop_extra_witness :
    _is_stop [A, G, A] 3 0 2 1 = some 1 ∧ _is_stop [A, G, A] 3 0 1 1 = some 0 :=
  ⟨is_stop_extra [A, G, A] 3 0 2 1 (by decide) (by decide) (by decide) (by decide)
      (by decide) (by decide) (by decide),
    is_stop_extra [A, G, A] 3 0 1 1 (by decide) (by decide) (by decide) (by decide)
      (by decide) (by decide) (by decide)⟩

/-! ## Strand symmetry -/

/-- C4, the claim as stated fails: with `S = [C, A, T, A]` the reverse strand at
position 0 reads TAT (not a start), while position `slen-3-0 = 1` of the
reverse complement `[T, A, T, G]` reads ATG (a start); with `S = [T, T, T, A]`
the reverse strand at position 0 reads TAA (a stop), while position 1 of the
reverse complement `[T, A, A, A]` reads AAA (not a stop). -/
theorem strand_symmetry_shifted_counterexample :
    (OverAlphabet [C, A, T, A] ∧ (([C, A, T, A] : List Nat).length : Int) = 4
      ∧ (0 : Int) ≤ 0 ∧ (0 : Int) ≤ 4 - 3
      ∧ _is_start [C, A, T, A] 4 0 1 (-1) = some 0
      ∧ _is_start (revcomp [C, A, T, A]) 4 (4 - 3 - 0) 1 1 = some 1
      ∧ _is_start [C, A, T, A] 4 0 1 (-1) ≠ _is_start (revcomp [C, A, T, A]) 4 (4 - 3 - 0) 1 1)
    ∧ (OverAlphabet [T, T, T, A] ∧ (([T, T, T, A] : List Nat).length : Int) = 4
      ∧ _is_stop [T, T, T, A] 4 0 1 (-1) = some 1
      ∧ _is_stop (revcomp [T, T, T, A]) 4 (4 - 3 - 0) 1 1 = some 0
      ∧ _is_stop [T, T, T, A] 4 0 1 (-1) ≠ _is_stop (revcomp [T, T, T, A]) 4 (4 - 3 - 0) 1 1) := by
  decide

/-- C4 (amended): for every buffer `S` over `{A,G,C,T,N}` of length `slen`, its
reverse complement `S'`, every genetic code `tt` and every `0 ≤ i ≤ slen-3`,
the reverse-strand query at `i` on `S` returns the same defined value as the
forward query at the same position `i` on `S'`, for `_is_start` and for
`_is_stop`. -/
theorem strand_symmetry_same_position (S : List Nat) (slen i tt strand : Int)
    (halpha : OverAlphabet S) (hlen : (S.length : Int) = slen)
    (hi0 : 0 ≤ i) (hi : i ≤ slen - 3) (hs : strand ≠ 1) :
    (∃ r, _is_start S slen i tt strand = some r
        ∧ _is_start (revcomp S) slen i tt 1 = some r)
    ∧ (∃ r, _is_stop S slen i tt strand = some r
        ∧ _is_stop (revcomp S) slen i tt 1 = some r) := by
  have hv := valid_of_alphabet S halpha
  have hlen' : ((revcomp S).length : Int) = slen := by rw [revcomp_length]; exact hlen
  have hw := window_revcomp S slen i strand hlen hi0 hi hs
  refine ⟨⟨_, is_start_eq_rule S slen i tt strand hlen hi0 hi hv, ?_⟩,
    ⟨_, is_stop_eq_rule S slen i tt strand hlen hi0 hi hv, ?_⟩⟩
  · rw [is_start_eq_rule (revcomp S) slen i tt 1 hlen' hi0 hi (revcomp_valid S), hw]
  · rw [is_stop_eq_rule (revcomp S) slen i tt 1 hlen' hi0 hi (revcomp_valid S), hw]

/-- Witness for C4 (amended): `S = [C, A, T, A]`, reverse strand, position 1
(ATG on the reverse strand, and in `S' = [T, A, T, G]` at position 1). -/
theorem strand_symmetry_same_position_witness :
    (OverAlphabet [C, A, T, A] ∧ (([C, A, T, A] : List Nat).length : Int) = 4
      ∧ (0 : Int) ≤ 1 ∧ (1 : Int) ≤ 4 - 3 ∧ (-1 : Int) ≠ 1)
    ∧ (∃ r, _is_start [C, A, T, A] 4 1 1 (-1) = some r
        ∧ _is_start (revcomp [C, A, T, A]) 4 1 1 1 = some r)
    ∧ (∃ r, _is_stop [C, A, T, A] 4 1 1 (-1) = some r
        ∧ _is_stop (revcomp [C, A, T, A]) 4 1 1 1 = some r) :=
  ⟨⟨by decide, by decide, by decide, by decide, by decide⟩,
    strand_symmetry_same_position [C, A, T, A] 4 1 1 (-1) (by decide) (by decide)
      (by decide) (by decide) (by decide)⟩

/-! ## Identity queries -/

theorem is_atg_eq (digits : List Nat) (slen i strand : Int)
    (hlen : (digits.length : Int) = slen) (hi0 : 0 ≤ i) (hi : i ≤ slen - 3)
    (hcodes : ValidCodes digits) :
    _is_atg digits slen i strand =
      some (if window digits slen i strand = (A, T, G) then 1 else 0) := by
  rw [_is_atg, load_codon_eq digits slen i strand hlen hi0 hi hcodes]
  simp only [Option.bind_eq_bind, Option.some_bind, window, ofBool, Prod.mk.injEq,
    Bool.and_eq_true, beq_iff_eq, and_assoc]
  rfl

theorem is_gtg_eq (digits : List Nat) (slen i strand : Int)
    (hlen : (digits.length : Int) = slen) (hi0 : 0 ≤ i) (hi : i ≤ slen - 3)
    (hcodes : ValidCodes digits) :
    _is_gtg digits slen i strand =
      some (if window digits slen i strand = (G, T, G) then 1 else 0) := by
  rw [_is_gtg, load_codon_eq digits slen i strand hlen hi0 hi hcodes]
  simp only [Option.bind_eq_bind, Option.some_bind, window, ofBool, Prod.mk.injEq,
    Bool.and_eq_true, beq_iff_eq, and_assoc]
  rfl

theorem is_ttg_eq (digits : List Nat) (slen i strand : Int)
    (hlen : (digits.length : Int) = slen) (hi0 : 0 ≤ i) (hi : i ≤ slen - 3)
    (hcodes : ValidCodes digits) :
    _is_ttg digits slen i strand =
      some (if window digits slen i strand = (T, T, G) then 1 else 0) := by
  rw [_is_ttg, load_codon_eq digits slen i strand hlen hi0 hi hcodes]
  simp only [Option.bind_eq_bind, Option.some_bind, window, ofBool, Prod.mk.injEq,
    Bool.and_eq_true, beq_iff_eq, and_assoc]
  rfl

theorem window_forward (digits : List Nat) (slen i : Int) :
    window digits slen i 1 = forward_reads digits i := by
  simp [window, oriented, forward_reads]

theorem window_reverse (digits : List Nat) (slen i strand : Int) (hs : strand ≠ 1) :
    window digits slen i strand = reverse_reads digits slen i := by
  have e1 : slen - 1 - (i + 1) = slen - 2 - i := by ring
  have e2 : slen - 1 - (i + 2) = slen - 3 - i := by ring
  simp [window, oriented, reverse_reads, hs, e1, e2]

/-- C5: for every buffer over `{A,G,C,T,N}` and in-bounds `i`, the identity
queries (which take no genetic code) return 1 iff, on the forward strand,
`(digits[i], digits[i+1], digits[i+2])` is ATG / GTG / TTG, and on the reverse
strand, `(complement(digits[slen-1-i]), complement(digits[slen-2-i]),
complement(digits[slen-3-i]))` is that triplet; they return 0 otherwise. -/
theorem identity_queries (digits : List Nat) (slen i strand : Int)
    (halpha : OverAlphabet digits) (hlen : (digits.length : Int) = slen)
    (hi0 : 0 ≤ i) (hi : i ≤ slen - 3) :
    (strand = 1 →
      _is_atg digits slen i strand = some (if forward_reads digits i = (A, T, G) then 1 else 0)
      ∧ _is_gtg digits slen i strand = some (if forward_reads digits i = (G, T, G) then 1 else 0)
      ∧ _is_ttg digits slen i strand = some (if forward_reads digits i = (T, T, G) then 1 else 0))
    ∧ (strand ≠ 1 →
      _is_atg digits slen i strand =
        some (if reverse_reads digits slen i = (A, T, G) then 1 else 0)
      ∧ _is_gtg digits slen i strand =
        some (if reverse_reads digits slen i = (G, T, G) then 1 else 0)
      ∧ _is_ttg digits slen i strand =
        some (if reverse_reads digits slen i = (T, T, G) then 1 else 0)) := by
  have hv := valid_of_alphabet digits halpha
  have h1 := is_atg_eq digits slen i strand hlen hi0 hi hv
  have h2 := is_gtg_eq digits slen i strand hlen hi0 hi hv
  have h3 := is_ttg_eq digits slen i strand hlen hi0 hi hv
  constructor
  · intro hs
    subst hs
    rw [window_forward] at h1 h2 h3
    exact ⟨h1, h2, h3⟩
  · intro hs
    rw [window_reverse digits slen i strand hs] at h1 h2 h3
    exact ⟨h1, h2, h3⟩

/-- Witness for C5: the buffer `[G, C, A, T]` ends in C,A,T; at reverse-strand
position 0 `_is_atg` is 1 (and `_is_start` is 1 under code 1), while on the
forward strand position 1 (CAT) is not ATG. -/
theorem identity_queries_witness :
    (_is_atg [G, C, A, T] 4 0 (-1) = some 1 ∧ _is_gtg [G, C, A, T] 4 0 (-1) = some 0
      ∧ _is_ttg [G, C, A, T] 4 0 (-1) = some 0)
    ∧ (_is_atg [G, C, A, T] 4 1 1 = some 0 ∧ _is_gtg [G, C, A, T] 4 1 1 = some 0
      ∧ _is_ttg [G, C, A, T] 4 1 1 = some 0)
    ∧ _is_start [G, C, A, T] 4 0 1 (-1) = some 1 :=
  ⟨(identity_queries [G, C, A, T] 4 0 (-1) (by decide) (by decide) (by decide)
      (by decide)).2 (by decide),
    (identity_queries [G, C, A, T] 4 1 1 (by decide) (by decide) (by decide)
      (by decide)).1 (by decide),
    by decide⟩

/-- C8: for every ATG-only code `tt ∈ {2,6,10,14,15,16}`, every buffer with
codes in `0..6`, in-bounds `i` and every strand value, `_is_start` and
`_is_atg` return the same defined value; in particular `_is_start` is 0 on GTG
and TTG windows. -/
theorem atg_only_codes (digits : List Nat) (slen i tt strand : Int)
    (htt : tt ∈ ([2, 6, 10, 14, 15, 16] : List Int))
    (hlen : (digits.length : Int) = slen) (hi0 : 0 ≤ i) (hi : i ≤ slen - 3)
    (hcodes : ValidCodes digits) :
    (∃ r, _is_start digits slen i tt strand = some r ∧ _is_atg digits slen i strand = some r)
    ∧ (window digits slen i strand = (G, T, G) ∨ window digits slen i strand = (T, T, G) →
        _is_start digits slen i tt strand = some 0) := by
  have h := is_start_eq_rule digits slen i tt strand hlen hi0 hi hcodes
  rw [start_rule_eq] at h
  have ha := is_atg_eq digits slen i strand hlen hi0 hi hcodes
  have key : _is_start digits slen i tt strand =
      some (if window digits slen i strand = (A, T, G) then 1 else 0) := by
    rw [h]
    by_cases hw : window digits slen i strand = (A, T, G)
    · rw [if_pos (Or.inl hw), if_pos hw]
    · rw [if_neg hw, if_neg]
      rintro (h1 | h1 | h1)
      · exact hw h1
      · exact h1.1 htt
      · exact h1.1 htt
  refine ⟨⟨_, key, ha⟩, fun hw => ?_⟩
  rw [key, if_neg]
  rcases hw with hw | hw <;> rw [hw] <;> decide

/-- Witness for C8: code 2 on the GTG buffer, forward strand. -/
theorem atg_only_codes_witness :
    (∃ r, _is_start [G, T, G] 3 0 2 1 = some r ∧ _is_atg [G, T, G] 3 0 1 = some r)
    ∧ _is_start [G, T, G] 3 0 2 1 = some 0 :=
  ⟨(atg_only_codes [G, T, G] 3 0 2 1 (by decide) (by decide) (by decide) (by decide)
      (by decide)).1,
    (atg_only_codes [G, T, G] 3 0 2 1 (by decide) (by decide) (by decide) (by decide)
      (by decide)).2 (by decide)⟩

/-! ## Composition queries -/

theorem alphabet_getD (digits : List Nat) (n : Nat) (halpha : OverAlphabet digits)
    (h : n < digits.length) :
    digits.getD n 0 = 0 ∨ digits.getD n 0 = 1 ∨ digits.getD n 0 = 2 ∨ digits.getD n 0 = 3
      ∨ digits.getD n 0 = 6 := by
  have := halpha _ (getD_mem digits n h)
  simpa [A, G, C, T, N] using this

/-- C9: for every buffer over `{A,G,C,T,N}`, in-bounds `i` (`0 ≤ i < slen`) and
every strand value, `_is_gc` returns 1 iff the oriented symbol (`digits[i]`
forward, `_complement[digits[slen-1-i]]` reverse) is C, G or N, and 0
otherwise; in particular it returns 1 when that symbol is N. -/
theorem is_gc_spec (digits : List Nat) (slen i strand : Int)
    (halpha : OverAlphabet digits) (hlen : (digits.length : Int) = slen)
    (hi0 : 0 ≤ i) (hi : i < slen) :
    _is_gc digits slen i strand =
      some (if oriented digits slen i strand ∈ [C, G, N] then 1 else 0)
    ∧ (oriented digits slen i strand = N → _is_gc digits slen i strand = some 1) := by
  have key : _is_gc digits slen i strand =
      some (if oriented digits slen i strand ∈ [C, G, N] then 1 else 0) := by
    unfold _is_gc oriented
    by_cases hs : strand = 1
    · simp only [hs, if_true]
      rw [readAt_eq digits i hi0 (by omega)]
      simp [ofBool, or_assoc]
    · simp only [hs, if_false]
      rw [readAt_eq digits (slen - 1 - i) (by omega) (by omega)]
      rcases alphabet_getD digits (slen - 1 - i).toNat halpha (by omega) with h | h | h | h | h <;>
        rw [h] <;> decide
  refine ⟨key, fun hN => ?_⟩
  rw [key, hN]
  rfl

/-- Witness for C9: the buffer `[N, A]`; the oriented symbol is N at forward
position 0 and at reverse position 1. -/
theorem is_gc_spec_witness :
    (OverAlphabet [N, A] ∧ (([N, A] : List Nat).length : Int) = 2)
    ∧ _is_gc [N, A] 2 0 1 = some 1 ∧ _is_gc [N, A] 2 1 (-1) = some 1 :=
  ⟨⟨by decide, by decide⟩,
    (is_gc_spec [N, A] 2 0 1 (by decide) (by decide) (by decide) (by decide)).2 (by decide),
    (is_gc_spec [N, A] 2 1 (-1) (by decide) (by decide) (by decide) (by decide)).2
      (by decide)⟩

/-- C10: for every buffer with codes in `0..6`, in-bounds `i` (`0 ≤ i < slen`)
and every strand value, `_is_a` returns 1 iff the oriented symbol equals A and
`_is_g` returns 1 iff the oriented symbol equals G (0 otherwise), where the
oriented symbol is `digits[i]` forward and `_complement[digits[slen-1-i]]`
reverse. -/
theorem is_a_is_g_spec (digits : List Nat) (slen i strand : Int)
    (hcodes : ValidCodes digits) (hlen : (digits.length : Int) = slen)
    (hi0 : 0 ≤ i) (hi : i < slen) :
    _is_a digits slen i strand = some (if oriented digits slen i strand = A then 1 else 0)
    ∧ _is_g digits slen i strand = some (if oriented digits slen i strand = G then 1 else 0) := by
  unfold _is_a _is_g oriented
  by_cases hs : strand = 1
  · simp only [hs, if_true]
    rw [readAt_eq digits i hi0 (by omega)]
    simp [ofBool]
  · simp only [hs, if_false]
    rw [readAt_eq digits (slen - 1 - i) (by omega) (by omega)]
    have hd := hcodes _ (getD_mem digits (slen - 1 - i).toNat (by omega))
    generalize digits.getD (slen - 1 - i).toNat 0 = d at hd
    interval_cases d <;> decide

/-- Witness for C10: the buffer `[A, G, C, T]`; on the reverse strand position 0
reads T (oriented A) and position 1 reads C (oriented G). -/
theorem is_a_is_g_spec_witness :
    (ValidCodes [A, G, C, T] ∧ (([A, G, C, T] : List Nat).length : Int) = 4)
    ∧ (_is_a [A, G, C, T] 4 0 (-1) = some 1 ∧ _is_g [A, G, C, T] 4 0 (-1) = some 0)
    ∧ (_is_a [A, G, C, T] 4 1 (-1) = some 0 ∧ _is_g [A, G, C, T] 4 1 (-1) = some 1)
    ∧ (_is_a [A, G, C, T] 4 0 1 = some 1 ∧ _is_g [A, G, C, T] 4 1 1 = some 1) :=
  ⟨⟨by decide, by decide⟩,
    is_a_is_g_spec [A, G, C, T] 4 0 (-1) (by decide) (by decide) (by decide) (by decide),
    is_a_is_g_spec [A, G, C, T] 4 1 (-1) (by decide) (by decide) (by decide) (by decide),
    (is_a_is_g_spec [A, G, C, T] 4 0 1 (by decide) (by decide) (by decide) (by decide)).1,
    (is_a_is_g_spec [A, G, C, T] 4 1 1 (by decide) (by decide) (by decide) (by decide)).2⟩

/-! ## K-mer index -/

theorem shl_eq (x j : Nat) (hx : x ≤ 3) (hj : j ≤ 14) : shl x (2 * j) = some (x * 4 ^ j) := by
  have h4 : (2 : Nat) ^ (2 * j) = 4 ^ j := by rw [pow_mul]; rfl
  have hle : 4 ^ j ≤ 4 ^ 14 := Nat.pow_le_pow_right (by decide) hj
  have hb : x * 4 ^ j < 2 ^ 31 := by
    calc x * 4 ^ j ≤ 3 * 4 ^ 14 := Nat.mul_le_mul hx hle
      _ < 2 ^ 31 := by decide
  unfold shl
  rw [Nat.shiftLeft_eq, h4, if_pos ⟨by omega, hb⟩]

theorem lor_eq_add (ndx x j : Nat) (h : ndx < 4 ^ j) : ndx ||| x * 4 ^ j = ndx + x * 4 ^ j := by
  have h4 : (2 : Nat) ^ (2 * j) = 4 ^ j := by rw [pow_mul]; rfl
  have := Nat.mul_add_lt_is_or (h4 ▸ h : ndx < 2 ^ (2 * j)) x
  rw [h4] at this
  rw [Nat.lor_comm, Nat.mul_comm, ← this, Nat.add_comm]

theorem mer_loop_fwd_eq (digits : List Nat) :
    ∀ (n j : Nat) (k : Int) (ndx : Nat), 0 ≤ k → k + n ≤ digits.length → j + n ≤ 15 →
      ndx < 4 ^ j →
      mer_loop_fwd digits n j k ndx =
        some (ndx + ∑ t in Finset.range n, (digits.getD (k + t).toNat 0 &&& 3) * 4 ^ (j + t)) := by
  intro n
  induction n with
  | zero => intro j k ndx _ _ _ _; simp [mer_loop_fwd]
  | succ n ih =>
    intro j k ndx hk0 hk hj hndx
    have hk' : k + 1 + (n : Int) ≤ digits.length := by push_cast at hk; omega
    have hd : digits.getD k.toNat 0 &&& 3 ≤ 3 := Nat.and_le_right
    have hnext : ndx + (digits.getD k.toNat 0 &&& 3) * 4 ^ j < 4 ^ (j + 1) := by
      have : (digits.getD k.toNat 0 &&& 3) * 4 ^ j ≤ 3 * 4 ^ j := Nat.mul_le_mul_right _ hd
      rw [pow_succ]; omega
    unfold mer_loop_fwd
    rw [readAt_eq digits k hk0 (by omega)]
    simp only [Option.bind_eq_bind, Option.some_bind]
    rw [shl_eq _ j hd (by omega)]
    simp only [Option.some_bind]
    rw [lor_eq_add _ _ _ hndx, ih (j + 1) (k + 1) _ (by omega) hk' (by omega) hnext,
      Finset.sum_range_succ']
    congr 1
    rw [Nat.add_assoc, Nat.add_comm ((digits.getD k.toNat 0 &&& 3) * 4 ^ j)]
    congr 2
    · apply Finset.sum_congr rfl
      intro t _
      have e1 : k + 1 + (t : Int) = k + ((t + 1 : Nat) : Int) := by push_cast; ring
      have e2 : j + 1 + t = j + (t + 1) := by ring
      rw [e1, e2]
    · simp

theorem mer_loop_rev_eq (digits : List Nat) (hcodes : ValidCodes digits) :
    ∀ (n j : Nat) (k : Int) (ndx : Nat), (n : Int) ≤ k + 1 → k < digits.length → j + n ≤ 15 →
      ndx < 4 ^ j →
      mer_loop_rev digits n j k ndx =
        some (ndx + ∑ t in Finset.range n,
          (_complement.getD (digits.getD (k - t).toNat 0) 0 &&& 3) * 4 ^ (j + t)) := by
  intro n
  induction n with
  | zero => intro j k ndx _ _ _ _; simp [mer_loop_rev]
  | succ n ih =>
    intro j k ndx hk0 hk hj hndx
    have hk0' : 0 ≤ k := by push_cast at hk0; omega
    have hk' : (n : Int) ≤ k - 1 + 1 := by push_cast at hk0; omega
    have hd : _complement.getD (digits.getD k.toNat 0) 0 &&& 3 ≤ 3 := Nat.and_le_right
    have hnext : ndx + (_complement.getD (digits.getD k.toNat 0) 0 &&& 3) * 4 ^ j
        < 4 ^ (j + 1) := by
      have : (_complement.getD (digits.getD k.toNat 0) 0 &&& 3) * 4 ^ j ≤ 3 * 4 ^ j :=
        Nat.mul_le_mul_right _ hd
      rw [pow_succ]; omega
    unfold mer_loop_rev
    rw [readAt_eq digits k hk0' hk]
    simp only [Option.bind_eq_bind, Option.some_bind]
    rw [complementAt_eq _ (hcodes _ (getD_mem digits _ (by omega)))]
    simp only [Option.some_bind]
    rw [shl_eq _ j hd (by omega)]
    simp only [Option.some_bind]
    rw [lor_eq_add _ _ _ hndx, ih (j + 1) (k - 1) _ hk' (by omega) (by omega) hnext,
      Finset.sum_range_succ']
    congr 1
    rw [Nat.add_assoc,
      Nat.add_comm ((_complement.getD (digits.getD k.toNat 0) 0 &&& 3) * 4 ^ j)]
    congr 2
    · apply Finset.sum_congr rfl
      intro t _
      have e1 : k - 1 - (t : Int) = k - ((t + 1 : Nat) : Int) := by push_cast; ring
      have e2 : j + 1 + t = j + (t + 1) := by ring
      rw [e1, e2]
    · simp

theorem mer_ndx_eq_sum (digits : List Nat) (slen i length strand : Int)
    (hcodes : ValidCodes digits) (hlen : (digits.length : Int) = slen)
    (hi0 : 0 ≤ i) (hl0 : 0 ≤ length) (hl : length ≤ 15) (hb : i + length ≤ slen) :
    _mer_ndx digits slen i length strand =
      some ((∑ j in Finset.range length.toNat,
        (oriented digits slen (i + j) strand &&& 3) * 4 ^ j : Nat) : Int) := by
  unfold _mer_ndx oriented
  by_cases hs : strand = 1
  · simp only [hs, if_true]
    rw [mer_loop_fwd_eq digits length.toNat 0 i 0 hi0 (by omega) (by omega) (by simp)]
    simp
  · simp only [hs, if_false]
    rw [mer_loop_rev_eq digits hcodes length.toNat 0 (slen - 1 - i) 0 (by omega) (by omega)
      (by omega) (by simp)]
    simp only [Option.map_some', Nat.zero_add, Int.ofNat_eq_coe, Option.some.injEq,
      Nat.cast_inj]
    apply Finset.sum_congr rfl
    intro t _
    have e : slen - 1 - i - (t : Int) = slen - 1 - (i + t) := by ring
    rw [e]

/-- C6, the claim as stated fails: on `[G, A]` with `length = 2`, forward
strand, the code returns 1 (G in the low slot), while the most-significant-
first formula gives 4. -/
theorem mer_ndx_msb_first_counterexample :
    (ValidCodes [G, A] ∧ (([G, A] : List Nat).length : Int) = 2 ∧ (0 : Int) ≤ 0
      ∧ (1 : Int) ≤ 2 ∧ (2 : Int) ≤ 15 ∧ (0 : Int) + 2 ≤ 2)
    ∧ _mer_ndx [G, A] 2 0 2 1 = some 1
    ∧ ((∑ j in Finset.range (2 : Int).toNat,
        (oriented [G, A] 2 (0 + j) 1 &&& 3) * 4 ^ ((2 : Int).toNat - 1 - j) : Nat) : Int) = 4
    ∧ _mer_ndx [G, A] 2 0 2 1 ≠
      some ((∑ j in Finset.range (2 : Int).toNat,
        (oriented [G, A] 2 (0 + j) 1 &&& 3) * 4 ^ ((2 : Int).toNat - 1 - j) : Nat) : Int) := by
  decide

/-- C6 (amended): for every buffer with codes in `0..6`, in-bounds window
(`0 ≤ i`, `i + length ≤ slen`), every strand value and `1 ≤ length ≤ 15`,
`_mer_ndx` packs the oriented symbols into a base-4 integer whose
least-significant slot is the first symbol read: the result is the sum over
`j < length` of `(s_j & 3) * 4^j`. -/
theorem mer_ndx_lsb_first (digits : List Nat) (slen i length strand : Int)
    (hcodes : ValidCodes digits) (hlen : (digits.length : Int) = slen)
    (hi0 : 0 ≤ i) (hl1 : 1 ≤ length) (hl : length ≤ 15) (hb : i + length ≤ slen) :
    _mer_ndx digits slen i length strand =
      some ((∑ j in Finset.range length.toNat,
        (oriented digits slen (i + j) strand &&& 3) * 4 ^ j : Nat) : Int) :=
  mer_ndx_eq_sum digits slen i length strand hcodes hlen hi0 (by omega) hl hb

/-- Witness for C6 (amended): `[G, A]`, `length = 2`, forward strand. -/
theorem mer_ndx_lsb_first_witness :
    (ValidCodes [G, A] ∧ (([G, A] : List Nat).length : Int) = 2 ∧ (0 : Int) ≤ 0
      ∧ (1 : Int) ≤ 2 ∧ (2 : Int) ≤ 15 ∧ (0 : Int) + 2 ≤ 2)
    ∧ _mer_ndx [G, A] 2 0 2 1 =
      some ((∑ j in Finset.range (2 : Int).toNat,
        (oriented [G, A] 2 (0 + j) 1 &&& 3) * 4 ^ j : Nat) : Int) :=
  ⟨by decide,
    mer_ndx_lsb_first [G, A] 2 0 2 1 (by decide) (by decide) (by decide) (by decide)
      (by decide) (by decide)⟩

theorem replace_length (digits : List Nat) (slen i length strand : Int) (old new : Nat) :
    (replace_in_window digits slen i length strand old new).length = digits.length := by
  simp [replace_in_window]

theorem replace_getD (digits : List Nat) (slen i length strand : Int) (old new : Nat)
    (p : Nat) (hp : p < digits.length) :
    (replace_in_window digits slen i length strand old new).getD p 0 =
      if in_read_window slen i length strand (p : Int) ∧ digits.getD p 0 = old then new
      else digits.getD p 0 := by
  unfold replace_in_window
  rw [List.getD_eq_getElem?_getD, List.getElem?_mapIdx, List.getElem?_eq_getElem hp,
    List.getD_eq_getElem digits 0 hp]
  rfl

theorem replace_valid (digits : List Nat) (slen i length strand : Int) (old new : Nat)
    (hcodes : ValidCodes digits) (hnew : new ≤ 6) :
    ValidCodes (replace_in_window digits slen i length strand old new) := by
  intro d hd
  obtain ⟨p, hp, rfl⟩ := List.getElem_of_mem hd
  have hp' : p < digits.length := by rw [replace_length] at hp; exact hp
  rw [← List.getD_eq_getElem _ 0 hp, replace_getD digits slen i length strand old new p hp']
  split_ifs
  · exact hnew
  · exact hcodes _ (getD_mem digits p hp')

theorem low_bits_forward (c : Prop) [Decidable c] (d : Nat) :
    (if c ∧ d = N then C else d) &&& 3 = d &&& 3 := by
  by_cases h : c ∧ d = N
  · rw [if_pos h, h.2]; rfl
  · rw [if_neg h]

theorem low_bits_reverse (c : Prop) [Decidable c] (d : Nat) :
    _complement.getD (if c ∧ d = N then G else d) 0 &&& 3 = _complement.getD d 0 &&& 3 := by
  by_cases h : c ∧ d = N
  · rw [if_pos h, h.2]; rfl
  · rw [if_neg h]

/-- C7, the claim as stated fails on the reverse strand: on `[N]` with
`length = 1` the reverse strand packs `_complement[N] & 3 = 2`, while with N
replaced by C it packs `_complement[C] & 3 = G = 1`. -/
theorem mer_ndx_n_aliasing_counterexample :
    (OverAlphabet [N] ∧ (([N] : List Nat).length : Int) = 1 ∧ (0 : Int) ≤ 0
      ∧ (0 : Int) ≤ 1 ∧ (1 : Int) ≤ 15 ∧ (0 : Int) + 1 ≤ 1)
    ∧ replace_in_window [N] 1 0 1 (-1) N C = [C]
    ∧ _mer_ndx [N] 1 0 1 (-1) = some 2
    ∧ _mer_ndx (replace_in_window [N] 1 0 1 (-1) N C) 1 0 1 (-1) = some 1
    ∧ _mer_ndx [N] 1 0 1 (-1) ≠ _mer_ndx (replace_in_window [N] 1 0 1 (-1) N C) 1 0 1 (-1) := by
  decide

/-- C7 (amended): for every buffer over `{A,G,C,T,N}`, in-bounds window and
`0 ≤ length ≤ 15`: on the forward strand `_mer_ndx` returns the same defined
value on the buffer and on the buffer with every N of the read window replaced
by C; on the reverse strand it returns the same defined value on the buffer and
on the buffer with every N of the read window replaced by G, the complement
of C. -/
theorem mer_ndx_n_aliasing (digits : List Nat) (slen i length strand : Int)
    (halpha : OverAlphabet digits) (hlen : (digits.length : Int) = slen)
    (hi0 : 0 ≤ i) (hl0 : 0 ≤ length) (hl : length ≤ 15) (hb : i + length ≤ slen) :
    (strand = 1 → ∃ r, _mer_ndx digits slen i length strand = some r
      ∧ _mer_ndx (replace_in_window digits slen i length strand N C) slen i length strand
          = some r)
    ∧ (strand ≠ 1 → ∃ r, _mer_ndx digits slen i length strand = some r
      ∧ _mer_ndx (replace_in_window digits slen i length strand N G) slen i length strand
          = some r) := by
  have hv := valid_of_alphabet digits halpha
  have h0 := mer_ndx_eq_sum digits slen i length strand hv hlen hi0 hl0 hl hb
  constructor
  · intro hs
    refine ⟨_, h0, ?_⟩
    rw [mer_ndx_eq_sum _ slen i length strand
      (replace_valid digits slen i length strand N C hv (by decide))
      (by rw [replace_length]; exact hlen) hi0 hl0 hl hb]
    congr 2
    apply Finset.sum_congr rfl
    intro t ht
    have ht' := Finset.mem_range.mp ht
    simp only [oriented, hs, if_true]
    rw [replace_getD digits slen i length 1 N C _ (by omega), low_bits_forward]
  · intro hs
    refine ⟨_, h0, ?_⟩
    rw [mer_ndx_eq_sum _ slen i length strand
      (replace_valid digits slen i length strand N G hv (by decide))
      (by rw [replace_length]; exact hlen) hi0 hl0 hl hb]
    congr 2
    apply Finset.sum_congr rfl
    intro t ht
    have ht' := Finset.mem_range.mp ht
    simp only [oriented, hs, if_false]
    rw [replace_getD digits slen i length strand N G _ (by omega), low_bits_reverse]

/-- Witness for C7 (amended): `[A, N, T]`, window of length 2 at position 0, on
the forward strand (N replaced by C) and on the reverse strand (N replaced
by G). -/
theorem mer_ndx_n_aliasing_witness :
    (replace_in_window [A, N, T] 3 0 2 1 N C = [A, C, T]
      ∧ replace_in_window [A, N, T] 3 0 2 (-1) N G = [A, G, T])
    ∧ (∃ r, _mer_ndx [A, N, T] 3 0 2 1 = some r
      ∧ _mer_ndx (replace_in_window [A, N, T] 3 0 2 1 N C) 3 0 2 1 = some r)
    ∧ (∃ r, _mer_ndx [A, N, T] 3 0 2 (-1) = some r
      ∧ _mer_ndx (replace_in_window [A, N, T] 3 0 2 (-1) N G) 3 0 2 (-1) = some r) :=
  ⟨by decide,
    (mer_ndx_n_aliasing [A, N, T] 3 0 2 1 (by decide) (by decide) (by decide) (by decide)
      (by decide) (by decide)).1 (by decide),
    (mer_ndx_n_aliasing [A, N, T] 3 0 2 (-1) (by decide) (by decide) (by decide) (by decide)
      (by decide) (by decide)).2 (by decide)⟩

/-! ## Complement table -/

/-- C11: the table `_complement` maps A to T, G to C, C to G, T to A and N to
N; for every `d` in `{A,G,C,T}` the double lookup `_complement[_complement[d]]`
is defined and returns `d`, and `_complement[N] = N`. -/
theorem complement_involution (d : Nat) (hd : d ∈ [A, G, C, T]) :
    (complementAt A = some T ∧ complementAt G = some C ∧ complementAt C = some G
      ∧ complementAt T = some A ∧ complementAt N = some N)
    ∧ (complementAt d).bind complementAt = some d := by
  refine ⟨by decide, ?_⟩
  simp only [A, G, C, T, List.mem_cons, List.mem_singleton, List.not_mem_nil, or_false] at hd
  rcases hd with rfl | rfl | rfl | rfl <;> decide

/-- Witness for C11: the digit G. -/
theorem complement_involution_witness :
    G ∈ [A, G, C, T] ∧ (complementAt G).bind complementAt = some G :=
  ⟨by decide, (complement_involution G (by decide)).2⟩

/-- C12, the claim as stated fails: the table entries for the two unused codes
4 and 5 are both N (6), not 4 and 5. -/
theorem complement_reserved_counterexample :
    complementAt 4 = some 6 ∧ complementAt 5 = some 6
    ∧ ¬ (complementAt 4 = some 4 ∧ complementAt 5 = some 5) := by
  decide

/-- C12 (amended): the complement table sends the two unused reserved codes to
N: `_complement[4] = N` and `_complement[5] = N`. -/
theorem complement_reserved : complementAt 4 = some N ∧ complementAt 5 = some N := by
  decide

/-! ## Memory safety of the codon queries -/

theorem readAt_none_iff (digits : List Nat) (k : Int) :
    readAt digits k = none ↔ k < 0 ∨ (digits.length : Int) ≤ k := by
  unfold readAt
  by_cases h : 0 ≤ k
  · rw [if_pos h, List.getElem?_eq_none_iff]
    omega
  · rw [if_neg h]
    simp only [true_iff]
    omega

theorem complementAt_none_iff (d : Nat) : complementAt d = none ↔ 6 < d := by
  unfold complementAt
  rw [List.getElem?_eq_none_iff]
  simp [_complement]
  omega

/-- C13: in the checked embedding a read fails exactly when its index is
outside `[0, slen)` (for the buffer) or above 6 (for `_complement`); under the
caller precondition (`0 ≤ i ≤ slen - 3`, hence `slen ≥ 3`, and every digit in
`0..6`) none of `_is_start`, `_is_stop`, `_is_atg`, `_is_gtg`, `_is_ttg` takes
the failing branch, on any strand: each returns a defined value. -/
theorem codon_queries_in_bounds (digits : List Nat) (slen i tt strand : Int)
    (hlen : (digits.length : Int) = slen) (hi0 : 0 ≤ i) (hi : i ≤ slen - 3)
    (hcodes : ValidCodes digits) :
    ((∀ k, readAt digits k = none ↔ k < 0 ∨ slen ≤ k)
      ∧ (∀ d, complementAt d = none ↔ 6 < d))
    ∧ (∃ x, load_codon digits slen i strand = some x)
    ∧ (∃ r, _is_start digits slen i tt strand = some r)
    ∧ (∃ r, _is_stop digits slen i tt strand = some r)
    ∧ (∃ r, _is_atg digits slen i strand = some r)
    ∧ (∃ r, _is_gtg digits slen i strand = some r)
    ∧ (∃ r, _is_ttg digits slen i strand = some r) := by
  refine ⟨⟨fun k => ?_, complementAt_none_iff⟩,
    ⟨_, load_codon_eq digits slen i strand hlen hi0 hi hcodes⟩,
    ⟨_, is_start_eq_rule digits slen i tt strand hlen hi0 hi hcodes⟩,
    ⟨_, is_stop_eq_rule digits slen i tt strand hlen hi0 hi hcodes⟩,
    ⟨_, is_atg_eq digits slen i strand hlen hi0 hi hcodes⟩,
    ⟨_, is_gtg_eq digits slen i strand hlen hi0 hi hcodes⟩,
    ⟨_, is_ttg_eq digits slen i strand hlen hi0 hi hcodes⟩⟩
  rw [readAt_none_iff, hlen]

/-- Witness for C13: the last window of "ATGAAATAAATG" on the reverse strand;
one position further the read leaves the buffer. -/
theorem codon_queries_in_bounds_witness :
    ((scenario.length : Int) = 12 ∧ (0 : Int) ≤ 9 ∧ (9 : Int) ≤ 12 - 3 ∧ ValidCodes scenario)
    ∧ (∃ r, _is_start scenario 12 9 1 (-1) = some r)
    ∧ (∃ r, _is_stop scenario 12 9 1 (-1) = some r)
    ∧ _is_start scenario 12 10 1 (-1) = none :=
  ⟨by decide,
    (codon_queries_in_bounds scenario 12 9 1 (-1) (by decide) (by decide) (by decide)
      (by decide)).2.2.1,
    (codon_queries_in_bounds scenario 12 9 1 (-1) (by decide) (by decide) (by decide)
      (by decide)).2.2.2.1,
    by decide⟩

/-! ## Relations between the codon queries -/

/-- C15: for every buffer `S` of length `slen` with codes in `0..6`, with `S'`
its reverse complement, every genetic code `tt` and every `0 ≤ i ≤ slen - 3`,
the reverse-strand `_is_start` (and `_is_stop`) at `i` on `S` is defined and
equals the forward-strand `_is_start` (and `_is_stop`) at the same `i` on
`S'`. -/
theorem same_index_strand_symmetry (S : List Nat) (slen i tt strand : Int)
    (hcodes : ValidCodes S) (hlen : (S.length : Int) = slen)
    (hi0 : 0 ≤ i) (hi : i ≤ slen - 3) (hs : strand ≠ 1) :
    (_is_start S slen i tt strand = _is_start (revcomp S) slen i tt 1
      ∧ (_is_start S slen i tt strand).isSome)
    ∧ (_is_stop S slen i tt strand = _is_stop (revcomp S) slen i tt 1
      ∧ (_is_stop S slen i tt strand).isSome) := by
  have hlen' : ((revcomp S).length : Int) = slen := by rw [revcomp_length]; exact hlen
  have hw := window_revcomp S slen i strand hlen hi0 hi hs
  have h1 := is_start_eq_rule S slen i tt strand hlen hi0 hi hcodes
  have h2 := is_stop_eq_rule S slen i tt strand hlen hi0 hi hcodes
  have h3 := is_start_eq_rule (revcomp S) slen i tt 1 hlen' hi0 hi (revcomp_valid S)
  have h4 := is_stop_eq_rule (revcomp S) slen i tt 1 hlen' hi0 hi (revcomp_valid S)
  rw [← hw] at h3 h4
  refine ⟨⟨?_, ?_⟩, ⟨?_, ?_⟩⟩
  · rw [h1, h3]
  · rw [h1]; rfl
  · rw [h2, h4]
  · rw [h2]; rfl

/-- Witness for C15: `S = [T, T, T, A, 4]` (with a reserved code), reverse
strand, position 1, where the reverse strand reads TAA. -/
theorem same_index_strand_symmetry_witness :
    (ValidCodes [T, T, T, A, 4] ∧ (([T, T, T, A, 4] : List Nat).length : Int) = 5
      ∧ (0 : Int) ≤ 1 ∧ (1 : Int) ≤ 5 - 3 ∧ (-1 : Int) ≠ 1)
    ∧ _is_stop [T, T, T, A, 4] 5 1 1 (-1) = some 1
    ∧ _is_stop (revcomp [T, T, T, A, 4]) 5 1 1 1 = some 1
    ∧ _is_start [T, T, T, A, 4] 5 1 1 (-1) = _is_start (revcomp [T, T, T, A, 4]) 5 1 1 1 :=
  ⟨by decide, by decide, by decide,
    (same_index_strand_symmetry [T, T, T, A, 4] 5 1 1 (-1) (by decide) (by decide)
      (by decide) (by decide) (by decide)).1.1⟩

theorem start_stop_rules_exclusive (x0 x1 x2 : Nat) (tt : Int) :
    ¬ (start_rule x0 x1 x2 tt = 1 ∧ stop_rule x0 x1 x2 tt = 1) := by
  rw [start_rule_eq, stop_rule_eq]
  simp only [A, G, C, T, Prod.mk.injEq, List.mem_cons, List.mem_singleton, List.not_mem_nil,
    or_false]
  intro h
  obtain ⟨h1, h2⟩ := h
  split_ifs at h1 <;> omega

/-- C16: for every buffer with codes in `0..6`, in-bounds `i`, every strand
value and every integer `tt`, `_is_start` and `_is_stop` both return a defined
value and are never both 1 at the same position. -/
theorem start_stop_exclusive (digits : List Nat) (slen i tt strand : Int)
    (hlen : (digits.length : Int) = slen) (hi0 : 0 ≤ i) (hi : i ≤ slen - 3)
    (hcodes : ValidCodes digits) :
    (∃ a b, _is_start digits slen i tt strand = some a
      ∧ _is_stop digits slen i tt strand = some b ∧ ¬ (a = 1 ∧ b = 1))
    ∧ ¬ (_is_start digits slen i tt strand = some 1
      ∧ _is_stop digits slen i tt strand = some 1) := by
  have h1 := is_start_eq_rule digits slen i tt strand hlen hi0 hi hcodes
  have h2 := is_stop_eq_rule digits slen i tt strand hlen hi0 hi hcodes
  refine ⟨⟨_, _, h1, h2, start_stop_rules_exclusive _ _ _ tt⟩, ?_⟩
  rw [h1, h2]
  rintro ⟨ha, hb⟩
  exact start_stop_rules_exclusive _ _ _ tt ⟨Option.some.inj ha, Option.some.inj hb⟩

/-- Witness for C16: position 0 (ATG, a start) and position 6 (TAA, a stop) of
"ATGAAATAAATG" under code 1. -/
theorem start_stop_exclusive_witness :
    (_is_start scenario 12 0 1 1 = some 1 ∧ _is_stop scenario 12 0 1 1 = some 0)
    ∧ (_is_start scenario 12 6 1 1 = some 0 ∧ _is_stop scenario 12 6 1 1 = some 1)
    ∧ ¬ (_is_start scenario 12 0 1 1 = some 1 ∧ _is_stop scenario 12 0 1 1 = some 1) :=
  ⟨by decide, by decide,
    (start_stop_exclusive scenario 12 0 1 1 (by decide) (by decide) (by decide)
      (by decide)).2⟩

/-- C17: for every buffer with codes in `0..6`, in-bounds `i`, every strand
value and every genetic code `tt`, the three identity queries return values in
`{0, 1}` of which at most one is 1, and if `_is_start` returns 1 then exactly
one of `_is_atg`, `_is_gtg`, `_is_ttg` returns 1. -/
theorem start_has_one_type (digits : List Nat) (slen i tt strand : Int)
    (hlen : (digits.length : Int) = slen) (hi0 : 0 ≤ i) (hi : i ≤ slen - 3)
    (hcodes : ValidCodes digits) :
    ∃ a g t, _is_atg digits slen i strand = some a
      ∧ _is_gtg digits slen i strand = some g
      ∧ _is_ttg digits slen i strand = some t
      ∧ (a = 0 ∨ a = 1) ∧ (g = 0 ∨ g = 1) ∧ (t = 0 ∨ t = 1)
      ∧ a + g + t ≤ 1
      ∧ (_is_start digits slen i tt strand = some 1 → a + g + t = 1) := by
  have hs := is_start_eq_rule digits slen i tt strand hlen hi0 hi hcodes
  rw [start_rule_eq] at hs
  refine ⟨_, _, _, is_atg_eq digits slen i strand hlen hi0 hi hcodes,
    is_gtg_eq digits slen i strand hlen hi0 hi hcodes,
    is_ttg_eq digits slen i strand hlen hi0 hi hcodes, ?_⟩
  rw [hs]
  generalize window digits slen i strand = w
  by_cases h1 : w = (A, T, G)
  · subst h1; exact ⟨by decide, by decide, by decide, by decide, fun _ => by decide⟩
  by_cases h2 : w = (G, T, G)
  · subst h2; exact ⟨by decide, by decide, by decide, by decide, fun _ => by decide⟩
  by_cases h3 : w = (T, T, G)
  · subst h3; exact ⟨by decide, by decide, by decide, by decide, fun _ => by decide⟩
  simp [h1, h2, h3]

/-- Witness for C17: position 0 of "ATGAAATAAATG" under code 1 is a start of
type ATG only. -/
theorem start_has_one_type_witness :
    (_is_start scenario 12 0 1 1 = some 1 ∧ _is_atg scenario 12 0 1 = some 1
      ∧ _is_gtg scenario 12 0 1 = some 0 ∧ _is_ttg scenario 12 0 1 = some 0)
    ∧ ∃ a g t, _is_atg scenario 12 0 1 = some a
      ∧ _is_gtg scenario 12 0 1 = some g
      ∧ _is_ttg scenario 12 0 1 = some t
      ∧ (a = 0 ∨ a = 1) ∧ (g = 0 ∨ g = 1) ∧ (t = 0 ∨ t = 1)
      ∧ a + g + t ≤ 1
      ∧ (_is_start scenario 12 0 1 1 = some 1 → a + g + t = 1) :=
  ⟨by decide,
    start_has_one_type scenario 12 0 1 1 (by decide) (by decide) (by decide) (by decide)⟩

/-! ## Value of the k-mer index -/

theorem and_three_eq_mod (x : Nat) : x &&& 3 = x % 4 :=
  Nat.and_pow_two_sub_one_eq_mod x 2

theorem base4_sum_lt (f : Nat → Nat) (hf : ∀ t, f t < 4) (n : Nat) :
    ∑ t in Finset.range n, f t * 4 ^ t < 4 ^ n := by
  induction n with
  | zero => simp
  | succ n ih =>
    rw [Finset.sum_range_succ, pow_succ]
    have : f n * 4 ^ n ≤ 3 * 4 ^ n := Nat.mul_le_mul_right _ (by have := hf n; omega)
    omega

theorem base4_digit (f : Nat → Nat) (hf : ∀ t, f t < 4) (n j : Nat) (hj : j < n) :
    (∑ t in Finset.range n, f t * 4 ^ t) / 4 ^ j % 4 = f j := by
  induction n with
  | zero => omega
  | succ n ih =>
    rw [Finset.sum_range_succ]
    have hpos : 0 < 4 ^ j := pow_pos (by decide) j
    by_cases hjn : j = n
    · subst hjn
      rw [Nat.mul_comm, Nat.add_mul_div_left _ _ hpos,
        Nat.div_eq_of_lt (base4_sum_lt f hf j), Nat.zero_add]
      exact Nat.mod_eq_of_lt (hf j)
    · have hlt : j < n := by omega
      have e4 : 4 ^ n = 4 ^ j * (4 * 4 ^ (n - j - 1)) := by
        rw [← pow_succ', ← pow_add]
        congr 1
        omega
      have e : f n * 4 ^ n = 4 ^ j * (4 * (f n * 4 ^ (n - j - 1))) := by
        rw [e4]; ring
      rw [e, Nat.add_mul_div_left _ _ hpos, Nat.add_mul_mod_self_left]
      exact ih hlt

theorem mer_ndx_eq_mod_sum (digits : List Nat) (slen i length strand : Int)
    (hcodes : ValidCodes digits) (hlen : (digits.length : Int) = slen)
    (hi0 : 0 ≤ i) (hl0 : 0 ≤ length) (hl : length ≤ 15) (hb : i + length ≤ slen) :
    _mer_ndx digits slen i length strand =
      some ((∑ j in Finset.range length.toNat,
        (oriented digits slen (i + j) strand % 4) * 4 ^ j : Nat) : Int) := by
  rw [mer_ndx_eq_sum digits slen i length strand hcodes hlen hi0 hl0 hl hb]
  simp only [and_three_eq_mod]

/-- C18: for every buffer with codes in `0..6`, in-bounds window and
`0 ≤ length ≤ 15`, on every strand, `_mer_ndx` returns the sum over
`j < length` of `(s_j mod 4) * 4^j`, where `s_j` is the `j`-th oriented symbol
read; the base-4 digit `j` of that sum (bits `2j` and `2j+1`) is `s_j mod 4`;
and for `length = 0` the result is 0. -/
theorem mer_ndx_packing (digits : List Nat) (slen i length strand : Int)
    (hcodes : ValidCodes digits) (hlen : (digits.length : Int) = slen)
    (hi0 : 0 ≤ i) (hl0 : 0 ≤ length) (hl : length ≤ 15) (hb : i + length ≤ slen) :
    _mer_ndx digits slen i length strand =
      some ((∑ j in Finset.range length.toNat,
        (oriented digits slen (i + j) strand % 4) * 4 ^ j : Nat) : Int)
    ∧ (∀ j, j < length.toNat →
        (∑ t in Finset.range length.toNat,
          (oriented digits slen (i + t) strand % 4) * 4 ^ t) / 4 ^ j % 4
          = oriented digits slen (i + j) strand % 4)
    ∧ (length = 0 → _mer_ndx digits slen i length strand = some 0) := by
  have h := mer_ndx_eq_mod_sum digits slen i length strand hcodes hlen hi0 hl0 hl hb
  refine ⟨h, fun j hj => ?_, fun h0 => ?_⟩
  · exact base4_digit (fun t => oriented digits slen (i + t) strand % 4)
      (fun t => Nat.mod_lt _ (by decide)) length.toNat j hj
  · rw [h, h0]
    rfl

/-- Witness for C18: `[G, A, T]`, window of length 2 at reverse position 0
(reads T then A, oriented A then T): the value is `0 + 3 * 4`. -/
theorem mer_ndx_packing_witness :
    (ValidCodes [G, A, T] ∧ (([G, A, T] : List Nat).length : Int) = 3 ∧ (0 : Int) ≤ 0
      ∧ (0 : Int) ≤ 2 ∧ (2 : Int) ≤ 15 ∧ (0 : Int) + 2 ≤ 3)
    ∧ _mer_ndx [G, A, T] 3 0 2 (-1) = some 12
    ∧ _mer_ndx [G, A, T] 3 0 2 (-1) =
      some ((∑ j in Finset.range (2 : Int).toNat,
        (oriented [G, A, T] 3 (0 + j) (-1) % 4) * 4 ^ j : Nat) : Int) :=
  ⟨by decide, by decide,
    (mer_ndx_packing [G, A, T] 3 0 2 (-1) (by decide) (by decide) (by decide) (by decide)
      (by decide) (by decide)).1⟩

/-- C19: for every buffer with codes in `0..6`, in-bounds window, every strand
value and `0 ≤ length ≤ 15`, `_mer_ndx` returns a defined value `r` with
`0 ≤ r < 4^length`, and every shift `(s_j & 3) << 2*j` of the loop is defined,
that is, stays inside the 32-bit signed range. -/
theorem mer_ndx_range (digits : List Nat) (slen i length strand : Int)
    (hcodes : ValidCodes digits) (hlen : (digits.length : Int) = slen)
    (hi0 : 0 ≤ i) (hl0 : 0 ≤ length) (hl : length ≤ 15) (hb : i + length ≤ slen) :
    (∃ r : Int, _mer_ndx digits slen i length strand = some r ∧ 0 ≤ r
      ∧ r < 4 ^ length.toNat)
    ∧ (∀ j, j < length.toNat → ∃ v,
        shl (oriented digits slen (i + j) strand &&& 3) (2 * j) = some v ∧ v < 2 ^ 31) := by
  have h := mer_ndx_eq_mod_sum digits slen i length strand hcodes hlen hi0 hl0 hl hb
  have hlt := base4_sum_lt (fun t => oriented digits slen (i + t) strand % 4)
    (fun t => Nat.mod_lt _ (by decide)) length.toNat
  refine ⟨⟨_, h, Int.natCast_nonneg _, by exact_mod_cast hlt⟩, fun j hj => ?_⟩
  have hs := shl_eq (oriented digits slen (i + j) strand &&& 3) j Nat.and_le_right (by omega)
  refine ⟨_, hs, ?_⟩
  have hle : 4 ^ j ≤ 4 ^ 14 := Nat.pow_le_pow_right (by decide) (by omega)
  calc (oriented digits slen (i + j) strand &&& 3) * 4 ^ j
      ≤ 3 * 4 ^ 14 := Nat.mul_le_mul Nat.and_le_right hle
    _ < 2 ^ 31 := by decide

/-- Witness for C19: `[T, T, N]`, the whole buffer, forward strand:
`3 + 3 * 4 + 2 * 16 = 47 < 64`. -/
theorem mer_ndx_range_witness :
    (ValidCodes [T, T, N] ∧ (([T, T, N] : List Nat).length : Int) = 3 ∧ (0 : Int) ≤ 0
      ∧ (0 : Int) ≤ 3 ∧ (3 : Int) ≤ 15 ∧ (0 : Int) + 3 ≤ 3)
    ∧ _mer_ndx [T, T, N] 3 0 3 1 = some 47
    ∧ ∃ r : Int, _mer_ndx [T, T, N] 3 0 3 1 = some r ∧ 0 ≤ r ∧ r < 4 ^ (3 : Int).toNat :=
  ⟨by decide, by decide,
    (mer_ndx_range [T, T, N] 3 0 3 1 (by decide) (by decide) (by decide) (by decide)
      (by decide) (by decide)).1⟩

/-- C20: for every buffer `S` of length `slen` with codes in `0..6`, with `S'`
its reverse complement, every `i ≥ 0` and `0 ≤ length ≤ 15` with
`i + length ≤ slen`, the reverse-strand `_mer_ndx` on `S` is defined and equals
the forward-strand `_mer_ndx` on `S'` at the same `i` and `length`. -/
theorem mer_ndx_strand_symmetry (S : List Nat) (slen i length strand : Int)
    (hcodes : ValidCodes S) (hlen : (S.length : Int) = slen)
    (hi0 : 0 ≤ i) (hl0 : 0 ≤ length) (hl : length ≤ 15) (hb : i + length ≤ slen)
    (hs : strand ≠ 1) :
    _mer_ndx S slen i length strand = _mer_ndx (revcomp S) slen i length 1
    ∧ (_mer_ndx S slen i length strand).isSome := by
  have hlen' : ((revcomp S).length : Int) = slen := by rw [revcomp_length]; exact hlen
  have h1 := mer_ndx_eq_sum S slen i length strand hcodes hlen hi0 hl0 hl hb
  have h2 := mer_ndx_eq_sum (revcomp S) slen i length 1 (revcomp_valid S) hlen' hi0 hl0 hl hb
  refine ⟨?_, by rw [h1]; rfl⟩
  rw [h1, h2]
  congr 2
  apply Finset.sum_congr rfl
  intro t ht
  have ht' := Finset.mem_range.mp ht
  rw [oriented_revcomp S slen (i + t) strand hlen (by omega) (by omega) hs]

/-- Witness for C20: `S = [G, A, T, 5]`, window of length 3 at position 0 on the
reverse strand, against `S' = [N, A, T, C]` on the forward strand. -/
theorem mer_ndx_strand_symmetry_witness :
    (ValidCodes [G, A, T, 5] ∧ (([G, A, T, 5] : List Nat).length : Int) = 4 ∧ (0 : Int) ≤ 0
      ∧ (0 : Int) ≤ 3 ∧ (3 : Int) ≤ 15 ∧ (0 : Int) + 3 ≤ 4 ∧ (-1 : Int) ≠ 1)
    ∧ revcomp [G, A, T, 5] = [N, A, T, C]
    ∧ _mer_ndx [G, A, T, 5] 4 0 3 (-1) = some 50
    ∧ _mer_ndx [G, A, T, 5] 4 0 3 (-1) = _mer_ndx (revcomp [G, A, T, 5]) 4 0 3 1 :=
  ⟨by decide, by decide, by decide,
    (mer_ndx_strand_symmetry [G, A, T, 5] 4 0 3 (-1) (by decide) (by decide) (by decide)
      (by decide) (by decide) (by decide) (by decide)).1⟩

/-! ## Skip kernel -/

theorem load_si_narrow (n k : Nat) (hk : k ≤ n) (m : List Nat) (i : Int) (v : List Nat)
    (h : load_si n m i = some v) : load_si k m i = some (v.take k) := by
  unfold load_si at h ⊢
  split_ifs at h with hc
  have hv := Option.some.inj h
  subst hv
  rw [if_pos ⟨hc.1, by omega⟩, List.take_take, Nat.min_eq_left hk]

theorem load_si_length (n : Nat) (m : List Nat) (i : Int) (v : List Nat)
    (h : load_si n m i = some v) : v.length = n := by
  unfold load_si at h
  split_ifs at h with hc
  have hv := Option.some.inj h
  subst hv
  rw [List.length_take, List.length_drop]
  omega

theorem load_si_defined (n : Nat) (m : List Nat) (i : Int) (h0 : 0 ≤ i)
    (h : i + (n : Int) ≤ (m.length : Int)) : ∃ v, load_si n m i = some v := by
  unfold load_si
  rw [if_pos ⟨h0, h⟩]
  exact ⟨_, rfl⟩

theorem narrows_of_le (P Q : SimdPolicy)
    (hload : ∀ m k v, P.simd_load m k = some v → Q.simd_load m k = some (v.take Q.lanes))
    (hset1 : ∀ x, (P.simd_set1 x).take Q.lanes = Q.simd_set1 x)
    (hor : ∀ x y, P.simd_or x y = or_si x y ∧ Q.simd_or x y = or_si x y)
    (heq : ∀ x y, P.simd_eq x y = cmpeq_epi8 x y ∧ Q.simd_eq x y = cmpeq_epi8 x y)
    (hand : ∀ x y, P.simd_and x y = and_si x y ∧ Q.simd_and x y = and_si x y)
    (handnot : ∀ x y, P.simd_andnot x y = andnot_si y x ∧ Q.simd_andnot x y = andnot_si y x) :
    Narrows P Q := by
  refine ⟨hload, hset1, fun x y => ?_, fun x y => ?_, fun x y => ?_, fun x y => ?_⟩
  · rw [(hor x y).1, (hor _ _).2]; exact List.take_zipWith
  · rw [(heq x y).1, (heq _ _).2]; exact List.take_zipWith
  · rw [(hand x y).1, (hand _ _).2]; exact List.take_zipWith
  · rw [(handnot x y).1, (handnot _ _).2]; exact List.take_zipWith

theorem avx_narrows_sse : Narrows avx sse :=
  narrows_of_le avx sse (fun m k v h => load_si_narrow 32 16 (by decide) m k v h)
    (fun x => by simp [avx, sse, set1_epi8, List.take_replicate])
    (fun _ _ => ⟨rfl, rfl⟩) (fun _ _ => ⟨rfl, rfl⟩) (fun _ _ => ⟨rfl, rfl⟩)
    (fun _ _ => ⟨rfl, rfl⟩)

theorem avx_narrows_scalar : Narrows avx scalar :=
  narrows_of_le avx scalar (fun m k v h => load_si_narrow 32 1 (by decide) m k v h)
    (fun x => by simp [avx, scalar, set1_epi8, List.take_replicate])
    (fun _ _ => ⟨rfl, rfl⟩) (fun _ _ => ⟨rfl, rfl⟩) (fun _ _ => ⟨rfl, rfl⟩)
    (fun _ _ => ⟨rfl, rfl⟩)

theorem sse_narrows_scalar : Narrows sse scalar :=
  narrows_of_le sse scalar (fun m k v h => load_si_narrow 16 1 (by decide) m k v h)
    (fun x => by simp [sse, scalar, set1_epi8, List.take_replicate])
    (fun _ _ => ⟨rfl, rfl⟩) (fun _ _ => ⟨rfl, rfl⟩) (fun _ _ => ⟨rfl, rfl⟩)
    (fun _ _ => ⟨rfl, rfl⟩)

theorem zipWith_sized (f : Nat → Nat → Nat) (n : Nat) (x y : List Nat)
    (hx : x.length = n) (hy : y.length = n) : (List.zipWith f x y).length = n := by
  rw [List.length_zipWith, hx, hy, Nat.min_self]

theorem avx_sized : Sized avx :=
  ⟨fun m k v h => load_si_length 32 m k v h, fun x => by simp [avx, set1_epi8],
    fun x y hx hy => zipWith_sized _ 32 x y hx hy, fun x y hx hy => zipWith_sized _ 32 x y hx hy,
    fun x y hx hy => zipWith_sized _ 32 x y hx hy,
    fun x y hx hy => zipWith_sized _ 32 y x hy hx⟩

theorem sse_sized : Sized sse :=
  ⟨fun m k v h => load_si_length 16 m k v h, fun x => by simp [sse, set1_epi8],
    fun x y hx hy => zipWith_sized _ 16 x y hx hy, fun x y hx hy => zipWith_sized _ 16 x y hx hy,
    fun x y hx hy => zipWith_sized _ 16 x y hx hy,
    fun x y hx hy => zipWith_sized _ 16 y x hy hx⟩

theorem skippable_simd_sized (P : SimdPolicy) (hP : Sized P) (body : SkipExpr)
    (strands : List Int) (types frames : List Nat) (min i : Int) :
    ∀ v, skippable_simd P body strands types frames min i = some v → v.length = P.lanes := by
  induction body with
  | strands => intro v h; exact hP.load _ _ v h
  | types => intro v h; exact hP.load _ _ v h
  | frames => intro v h; exact hP.load _ _ v h
  | broadcast x =>
    intro v h
    simp only [skippable_simd, Option.some.injEq] at h
    rw [← h]; exact hP.set1 _
  | or a b iha ihb =>
    intro v h
    simp only [skippable_simd, Option.bind_eq_bind, Option.bind_eq_some, Option.pure_def,
      Option.some.injEq] at h
    obtain ⟨x, hx, y, hy, rfl⟩ := h
    exact hP.or x y (iha x hx) (ihb y hy)
  | eq a b iha ihb =>
    intro v h
    simp only [skippable_simd, Option.bind_eq_bind, Option.bind_eq_some, Option.pure_def,
      Option.some.injEq] at h
    obtain ⟨x, hx, y, hy, rfl⟩ := h
    exact hP.eq x y (iha x hx) (ihb y hy)
  | and a b iha ihb =>
    intro v h
    simp only [skippable_simd, Option.bind_eq_bind, Option.bind_eq_some, Option.pure_def,
      Option.some.injEq] at h
    obtain ⟨x, hx, y, hy, rfl⟩ := h
    exact hP.and x y (iha x hx) (ihb y hy)
  | andnot a b iha ihb =>
    intro v h
    simp only [skippable_simd, Option.bind_eq_bind, Option.bind_eq_some, Option.pure_def,
      Option.some.injEq] at h
    obtain ⟨x, hx, y, hy, rfl⟩ := h
    exact hP.andnot x y (iha x hx) (ihb y hy)

theorem skippable_simd_narrow (P Q : SimdPolicy) (hPQ : Narrows P Q) (body : SkipExpr)
    (strands : List Int) (types frames : List Nat) (min i : Int) :
    ∀ v, skippable_simd P body strands types frames min i = some v →
      skippable_simd Q body strands types frames min i = some (v.take Q.lanes) := by
  induction body with
  | strands => intro v h; exact hPQ.load _ _ v h
  | types => intro v h; exact hPQ.load _ _ v h
  | frames => intro v h; exact hPQ.load _ _ v h
  | broadcast x =>
    intro v h
    simp only [skippable_simd, Option.some.injEq] at h ⊢
    rw [← h]; exact (hPQ.set1 _).symm
  | or a b iha ihb =>
    intro v h
    simp only [skippable_simd, Option.bind_eq_bind, Option.bind_eq_some, Option.pure_def,
      Option.some.injEq] at h
    obtain ⟨x, hx, y, hy, rfl⟩ := h
    simp only [skippable_simd, iha x hx, ihb y hy, Option.bind_eq_bind, Option.some_bind,
      Option.pure_def, hPQ.or]
  | eq a b iha ihb =>
    intro v h
    simp only [skippable_simd, Option.bind_eq_bind, Option.bind_eq_some, Option.pure_def,
      Option.some.injEq] at h
    obtain ⟨x, hx, y, hy, rfl⟩ := h
    simp only [skippable_simd, iha x hx, ihb y hy, Option.bind_eq_bind, Option.some_bind,
      Option.pure_def, hPQ.eq]
  | and a b iha ihb =>
    intro v h
    simp only [skippable_simd, Option.bind_eq_bind, Option.bind_eq_some, Option.pure_def,
      Option.some.injEq] at h
    obtain ⟨x, hx, y, hy, rfl⟩ := h
    simp only [skippable_simd, iha x hx, ihb y hy, Option.bind_eq_bind, Option.some_bind,
      Option.pure_def, hPQ.and]
  | andnot a b iha ihb =>
    intro v h
    simp only [skippable_simd, Option.bind_eq_bind, Option.bind_eq_some, Option.pure_def,
      Option.some.injEq] at h
    obtain ⟨x, hx, y, hy, rfl⟩ := h
    simp only [skippable_simd, iha x hx, ihb y hy, Option.bind_eq_bind, Option.some_bind,
      Option.pure_def, hPQ.andnot]

theorem skippable_simd_defined (P : SimdPolicy) (body : SkipExpr)
    (strands : List Int) (types frames : List Nat) (min i : Int)
    (hs : ∃ v, P.simd_load (strands.map to_byte) i = some v)
    (ht : ∃ v, P.simd_load types i = some v) (hf : ∃ v, P.simd_load frames i = some v) :
    ∃ v, skippable_simd P body strands types frames min i = some v := by
  induction body with
  | strands => exact hs
  | types => exact ht
  | frames => exact hf
  | broadcast x => exact ⟨_, rfl⟩
  | or a b iha ihb =>
    obtain ⟨x, hx⟩ := iha
    obtain ⟨y, hy⟩ := ihb
    exact ⟨P.simd_or x y, by simp only [skippable_simd, hx, hy, Option.bind_eq_bind,
      Option.some_bind, Option.pure_def]⟩
  | eq a b iha ihb =>
    obtain ⟨x, hx⟩ := iha
    obtain ⟨y, hy⟩ := ihb
    exact ⟨P.simd_eq x y, by simp only [skippable_simd, hx, hy, Option.bind_eq_bind,
      Option.some_bind, Option.pure_def]⟩
  | and a b iha ihb =>
    obtain ⟨x, hx⟩ := iha
    obtain ⟨y, hy⟩ := ihb
    exact ⟨P.simd_and x y, by simp only [skippable_simd, hx, hy, Option.bind_eq_bind,
      Option.some_bind, Option.pure_def]⟩
  | andnot a b iha ihb =>
    obtain ⟨x, hx⟩ := iha
    obtain ⟨y, hy⟩ := ihb
    exact ⟨P.simd_andnot x y, by simp only [skippable_simd, hx, hy, Option.bind_eq_bind,
      Option.some_bind, Option.pure_def]⟩

theorem take_getElem? (v : List Nat) (k j : Nat) (hj : j < k) : (v.take k)[j]? = v[j]? := by
  rw [List.getElem?_take, if_pos hj]

end Pyrodigal
